import Mathlib

/-!
# CYCLES — verification of the judging/timing engine and the chart decoder

Shallow embedding of the judging engine, scoring tracker and pattern
classifier of `src/components/GameCanvas.tsx`, and of the beatmap decoder of
`src/utils/osuParser.ts`, together with theorems settling the frozen claims
about them.

Modelling conventions:
* Engine-clock samples and note times are integer milliseconds (`Int`); the
  source works with JS doubles but every timing comparison in the claims is
  at integer granularity.  `noteSpeed` is kept rational because the source
  divides by `noteSpeed * 1000`.
* JS `number` values that can be `NaN` in the decoder (results of
  `parseInt`/`parseFloat` on malformed fields) are modelled as `Option Int` /
  `Option ℚ`, `none` standing for `NaN`; comparisons with `NaN` are `false`,
  matching JS.
* The mutable `GameStateRef` record is modelled by an explicit `EngineState`
  containing the judgement-relevant fields; purely cosmetic fields
  (particles, screen shake, key-down visuals, jack detection, hit-deviation
  instrumentation) are omitted.  `judgeLog` records the judgement-event
  stream (note index, grade) emitted at the two judging sites, and
  `flashEvents` records the lane sets passed to `spawnGeometricFlash`.
-/

namespace Cycles

/-- Judgement grades (`'perfect' | 'good' | 'bad' | 'miss'` in the source). -/
inductive Grade where
  | perfect
  | good
  | bad
  | miss
deriving DecidableEq, Repr

/-- Engine-side note (`HitObject` of `types.ts` restricted to the fields the
judging engine reads: `time`, `endTime`, `column`).  `endTime = some e`
models a hold note. -/
structure HitObject where
  time : Int
  endTime : Option Int
  column : Nat
deriving DecidableEq, Repr

/-- Constant `HIT_WINDOW_PERFECT = 80`. -/
def HIT_WINDOW_PERFECT : Int := 80

/-- Constant `HIT_WINDOW_GOOD = 120`. -/
def HIT_WINDOW_GOOD : Int := 120

/-- Constant `HIT_WINDOW_BAD = 160`. -/
def HIT_WINDOW_BAD : Int := 160

/-- The judgement-relevant slice of `GameStateRef`. -/
structure EngineState where
  score : Nat
  combo : Nat
  maxCombo : Nat
  perfect : Nat
  good : Nat
  bad : Nat
  miss : Nat
  processedIndices : List Nat
  holdingIndices : List Nat
  flashEvents : List (List Nat)
  judgeLog : List (Nat × Grade)
deriving DecidableEq, Repr

/-- The initial `state.current` value. -/
def initState : EngineState :=
  { score := 0, combo := 0, maxCombo := 0, perfect := 0, good := 0, bad := 0,
    miss := 0, processedIndices := [], holdingIndices := [], flashEvents := [],
    judgeLog := [] }

/-- Source function `registerHit` (scoring part): `miss` zeroes the combo and bumps the miss
counter; the other grades bump the combo, update the high-water mark and add
their points.  Cosmetic effects (judgement text, particles, screen shake,
hit sound) and the deviation instrumentation are omitted. -/
def registerHit (g : Grade) (s : EngineState) : EngineState :=
  match g with
  | .miss => { s with combo := 0, miss := s.miss + 1 }
  | .perfect =>
      let c := s.combo + 1
      { s with combo := c,
               maxCombo := if c > s.maxCombo then c else s.maxCombo,
               score := s.score + 300, perfect := s.perfect + 1 }
  | .good =>
      let c := s.combo + 1
      { s with combo := c,
               maxCombo := if c > s.maxCombo then c else s.maxCombo,
               score := s.score + 100, good := s.good + 1 }
  | .bad =>
      let c := s.combo + 1
      { s with combo := c,
               maxCombo := if c > s.maxCombo then c else s.maxCombo,
               score := s.score + 50, bad := s.bad + 1 }

/-- The grade branch of `handleInput` as a function of
`diff = note.time - currentTimeMs`:
`absDiff <= 80` perfect, `absDiff <= 120` good,
`120 < diff <= 160` bad, otherwise no note is resolved. -/
def gradeOf (diff : Int) : Option Grade :=
  if |diff| ≤ HIT_WINDOW_PERFECT then some .perfect
  else if |diff| ≤ HIT_WINDOW_GOOD then some .good
  else if HIT_WINDOW_GOOD < diff ∧ diff ≤ HIT_WINDOW_BAD then some .bad
  else none

/-- The per-lane candidate filter of `handleInput`:
`obj.column === col && !processedIndices.has(idx) && (obj.time - currentTimeMs) < HIT_WINDOW_BAD`,
over the timeline indexed by position (`idx` is the array index). -/
def laneCandidates (timeline : List HitObject) (s : EngineState) (col : Nat)
    (t : Int) : List (Nat × HitObject) :=
  timeline.enum.filter fun p =>
    decide (p.2.column = col ∧ p.1 ∉ s.processedIndices ∧
            p.2.time - t < HIT_WINDOW_BAD)

/-- Selection `visibleNotes.sort((a, b) => |a.time - t| - |b.time - t|)[0]`: the JS sort
is stable, so the head is the first candidate (in array order) of minimal
absolute difference; modelled by a fold keeping the earlier element on
ties. -/
def closestCandidate (t : Int) : List (Nat × HitObject) → Option (Nat × HitObject)
  | [] => none
  | c :: rest =>
      match closestCandidate t rest with
      | none => some c
      | some d => if |d.2.time - t| < |c.2.time - t| then some d else some c

/-- One iteration of the `lanes.forEach` selection of `handleInput`: take
the closest pending candidate of the lane, then keep the globally best
match (`absDiff < bestHit.absDiff` — a strict comparison, so earlier lanes
win ties). -/
def laneBestStep (timeline : List HitObject) (s : EngineState) (t : Int)
    (best : Option (Nat × HitObject)) (col : Nat) : Option (Nat × HitObject) :=
  match closestCandidate t (laneCandidates timeline s col t) with
  | none => best
  | some c =>
      match best with
      | none => some c
      | some b => if |c.2.time - t| < |b.2.time - t| then some c else best

/-- The `lanes.forEach` selection of `handleInput` over the candidate lane
pair. -/
def bestHitFor (timeline : List HitObject) (s : EngineState) (lanes : List Nat)
    (t : Int) : Option (Nat × HitObject) :=
  lanes.foldl (laneBestStep timeline s t) none

/-- JS truthiness of `note.endTime` (`undefined`, and a `0` end time, are
falsy). -/
def jsTruthyInt (v : Option Int) : Bool :=
  match v with
  | some x => decide (x ≠ 0)
  | none => false

/-- Source function `detectPatterns`: collect the already-judged notes whose **note time** is
within 40ms (absolute value) of the current engine clock; if at least two
distinct lanes appear, push one cosmetic flash event carrying the distinct
lane set (`spawnGeometricFlash`; its geometry and screen shake are
cosmetic and omitted — the recorded lane list is the event payload). -/
def detectPatterns (timeline : List HitObject) (t : Int) (s : EngineState) :
    EngineState :=
  let recentHits := timeline.enum.filter fun p =>
    decide (p.1 ∈ s.processedIndices ∧ |p.2.time - t| < 40)
  let uniqueCols :=
    (recentHits.map fun p => p.2.column).foldl
      (fun acc c => if c ∈ acc then acc else acc ++ [c]) []
  if uniqueCols.length ≥ 2 then
    { s with flashEvents := s.flashEvents ++ [uniqueCols] }
  else s

/-- The judging phase of the `isDown` branch of `handleInput`: resolve the
best match, and if its diff falls in a window, mark the note processed
(holds additionally become held) and register the hit.  The whiff branch
only touches cosmetic key-down state and is a no-op here. -/
def judgePhase (timeline : List HitObject) (lanes : List Nat) (t : Int)
    (s : EngineState) : EngineState :=
  match bestHitFor timeline s lanes t with
  | none => s
  | some (idx, note) =>
      match gradeOf (note.time - t) with
      | none => s
      | some g =>
          registerHit g
            { s with processedIndices := idx :: s.processedIndices,
                     holdingIndices :=
                       if jsTruthyInt note.endTime then s.holdingIndices ++ [idx]
                       else s.holdingIndices,
                     judgeLog := s.judgeLog ++ [(idx, g)] }

/-- Source call `handleInput(lanes, true)`: judge, then run the pattern classifier
(`detectPatterns` is called on every key-down, matched or not). -/
def handleKeyDown (timeline : List HitObject) (lanes : List Nat) (t : Int)
    (s : EngineState) : EngineState :=
  detectPatterns timeline t (judgePhase timeline lanes t s)

/-- One lane of the key-up branch of `handleInput`: drop the first
currently-held note of the lane from `holdingIndices`. -/
def keyupVisit (timeline : List HitObject) (st : EngineState) (col : Nat) :
    EngineState :=
  match st.holdingIndices.find? (fun idx =>
      match timeline.get? idx with
      | some o => decide (o.column = col)
      | none => false) with
  | none => st
  | some idx => { st with holdingIndices := st.holdingIndices.erase idx }

/-- Source call `handleInput(lanes, false)`: for each lane of the released
pair, drop the first currently-held note of that lane. -/
def handleKeyUp (timeline : List HitObject) (lanes : List Nat)
    (s : EngineState) : EngineState :=
  lanes.foldl (keyupVisit timeline) s

/-- The per-tick visibility filter of `gameLoop`:
a note is visible unless it is processed and not held, and its time must lie
in `[t - 200, t + noteSpeed * 1000]`. -/
def tickVisible (timeline : List HitObject) (noteSpeed : ℚ) (t : Int)
    (s : EngineState) : List (Nat × HitObject) :=
  timeline.enum.filter fun p =>
    decide (¬(p.1 ∈ s.processedIndices ∧ p.1 ∉ s.holdingIndices) ∧
            p.2.time ≥ t - 200 ∧
            (p.2.time : ℚ) ≤ (t : ℚ) + noteSpeed * 1000)

/-- One iteration of the `visibleNotes.forEach` miss scan: skip when
`progress < 0`; auto-miss a still-unprocessed note whose
`timeUntilHit < -HIT_WINDOW_BAD`. -/
def tickVisit (noteSpeed : ℚ) (t : Int) (st : EngineState)
    (p : Nat × HitObject) : EngineState :=
  let timeUntilHit := p.2.time - t
  if (1 : ℚ) - (timeUntilHit : ℚ) / (noteSpeed * 1000) < 0 then st
  else if p.1 ∉ st.processedIndices ∧ timeUntilHit < -HIT_WINDOW_BAD then
    registerHit .miss
      { st with processedIndices := p.1 :: st.processedIndices,
                judgeLog := st.judgeLog ++ [(p.1, Grade.miss)] }
  else st

/-- The judging part of one `gameLoop` tick at engine clock `t`: the
auto-miss scan over the visible notes (rendering is cosmetic and omitted). -/
def handleTick (timeline : List HitObject) (noteSpeed : ℚ) (t : Int)
    (s : EngineState) : EngineState :=
  (tickVisible timeline noteSpeed t s).foldl (tickVisit noteSpeed t) s

/-- Engine-facing events: key-down / key-up of a lane pair with the engine
clock sampled at the event, and a tick at a clock sample. -/
inductive GEvent where
  | keydown (lanes : List Nat) (t : Int)
  | keyup (lanes : List Nat) (t : Int)
  | tick (t : Int)

/-- One engine step. -/
def step (timeline : List HitObject) (noteSpeed : ℚ) (s : EngineState) :
    GEvent → EngineState
  | .keydown lanes t => handleKeyDown timeline lanes t s
  | .keyup lanes _t => handleKeyUp timeline lanes s
  | .tick t => handleTick timeline noteSpeed t s

/-- Run a sequence of events. -/
def run (timeline : List HitObject) (noteSpeed : ℚ) (s : EngineState)
    (evs : List GEvent) : EngineState :=
  evs.foldl (step timeline noteSpeed) s

/-- Per-note judgement state (spec §3 `JudgementState`), derived from the
judgement-event stream: `Pending` until an event for the index appears. -/
inductive NoteStatus where
  | pending
  | resolved (g : Grade)
  | missed
deriving DecidableEq, Repr

/-- The status of note `idx`: the first judgement event recorded for it. -/
def statusOf (s : EngineState) (idx : Nat) : NoteStatus :=
  match s.judgeLog.find? (fun e => decide (e.1 = idx)) with
  | none => .pending
  | some e => if e.2 = .miss then .missed else .resolved e.2

/-- How many judgement events a note has received. -/
def countLog (s : EngineState) (idx : Nat) : Nat :=
  (s.judgeLog.filter fun e => decide (e.1 = idx)).length

/-- From `updateStats`: points earned so far. -/
def currentPoints (s : EngineState) : Nat :=
  s.perfect * 300 + s.good * 100 + s.bad * 50

/-- From `updateStats`: judged notes so far (misses included). -/
def hitsSoFar (s : EngineState) : Nat :=
  s.perfect + s.good + s.bad + s.miss

/-- From `updateStats`: `maxPointsSoFar > 0 ? currentPoints / maxPointsSoFar * 101 : 101`. -/
def accuracy (s : EngineState) : ℚ :=
  let maxPointsSoFar := hitsSoFar s * 300
  if maxPointsSoFar > 0 then
    ((currentPoints s : ℚ) / (maxPointsSoFar : ℚ)) * 101
  else 101

/-! ## Chart decoder (`src/utils/osuParser.ts`)

Text is processed at the character-list level (`String.data`), with
total helper functions mirroring the JS string operations used by the
source.  JS `NaN` results of `parseInt` / `parseFloat` are `none`. -/

/-- JS `s.split(c)` (single-character separator, like the source's
`split('\n')`, `split(',')`, `split(':')`). -/
def splitOnChar (c : Char) (l : List Char) : List (List Char) :=
  l.foldr
    (fun ch acc =>
      if ch = c then [] :: acc
      else
        match acc with
        | a :: rest => (ch :: a) :: rest
        | [] => [[ch]])
    [[]]

/-- JS `s.trim()`. -/
def trimChars (l : List Char) : List Char :=
  ((l.dropWhile Char.isWhitespace).reverse.dropWhile Char.isWhitespace).reverse

/-- Numeric value of a digit run. -/
def digitsVal (l : List Char) : Nat :=
  l.foldl (fun n c => n * 10 + (c.toNat - 48)) 0

/-- JS `parseInt(s)` (radix 10): skip leading whitespace, optional sign,
then a maximal run of digits; `NaN` (`none`) when no digit is found.
(The hexadecimal `0x` form accepted by JS never occurs in chart files and
is not modelled.) -/
def jsParseInt (l : List Char) : Option Int :=
  let l₁ := l.dropWhile Char.isWhitespace
  let sign : Int := if l₁.head? = some '-' then -1 else 1
  let l₂ := if l₁.head? = some '-' ∨ l₁.head? = some '+' then l₁.drop 1 else l₁
  let ds := l₂.takeWhile Char.isDigit
  if ds.isEmpty then none else some (sign * (digitsVal ds : Int))

/-- JS `parseInt(parts[i])` where `parts[i]` may be `undefined`
(`parseInt(undefined)` is `NaN`). -/
def jsParseIntAt (parts : List (List Char)) (i : Nat) : Option Int :=
  match parts.get? i with
  | none => none
  | some s => jsParseInt s

/-- JS `parseFloat(s)`: sign, integer digits, optional fractional digits;
`NaN` when no digit is found.  (Exponent notation is not used by chart
files and is not modelled.) -/
def jsParseFloat (l : List Char) : Option ℚ :=
  let l₁ := l.dropWhile Char.isWhitespace
  let sign : ℚ := if l₁.head? = some '-' then -1 else 1
  let l₂ := if l₁.head? = some '-' ∨ l₁.head? = some '+' then l₁.drop 1 else l₁
  let ds := l₂.takeWhile Char.isDigit
  let rest := l₂.drop ds.length
  let fs := if rest.head? = some '.' then (rest.drop 1).takeWhile Char.isDigit else []
  if ds.isEmpty ∧ fs.isEmpty then none
  else some (sign * ((digitsVal ds : ℚ) + (digitsVal fs : ℚ) / ((10 : ℚ) ^ fs.length)))

/-- A parsed `TimingPoints` row. -/
structure TimingPoint where
  time : Option ℚ
  beatLength : Option ℚ
  uninherited : Bool
deriving DecidableEq, Repr

/-- A decoded hit object (`parseOsuText`): raw numeric fields may be `NaN`
(`none`); `endTime = some v` means the hold bit was set and `v` is the
parsed end time (itself possibly `NaN`); `column` is the mapped, clamped
lane. -/
structure OsuHitObject where
  x : Option Int
  y : Option Int
  time : Option Int
  ty : Option Int
  hitSound : Option Int
  endTime : Option (Option Int)
  column : Option Int
deriving DecidableEq, Repr

/-- The output record of `parseOsuText` (asset blobs are not modelled; the
`backgroundImage` field holds the referenced file name). -/
structure OsuData where
  title : String
  artist : String
  creator : String
  version : String
  audioFilename : String
  backgroundImage : Option String
  hitObjects : List OsuHitObject
  bpm : Int
deriving DecidableEq, Repr

/-- Parser loop state: current `[Section]`, accumulated data, `circleSize`
(default 4, `NaN` possible) and the collected timing points. -/
structure PState where
  sect : List Char
  data : OsuData
  circleSize : Option Int
  timingPoints : List TimingPoint
deriving Repr

/-- Initial parser state (`data` defaults of `parseOsuText`). -/
def initPState : PState :=
  { sect := [],
    data := { title := "Unknown", artist := "Unknown", creator := "Unknown",
              version := "Normal", audioFilename := "",
              backgroundImage := none, hitObjects := [], bpm := 120 },
    circleSize := some 4,
    timingPoints := [] }

/-- JS `Math.floor(a / b)` on possibly-`NaN` operands, `b` a positive literal. -/
def jsFloorDivInt (a : Option Int) (b : Int) : Option Int :=
  match a with
  | some v => some (Int.fdiv v b)
  | none => none

/-- Test `(type & 128) > 0`: JS coerces `NaN` to `0` (`false`); for an integer the
test reads bit 7 of its two's-complement image. -/
def hasHoldBit (ty : Option Int) : Bool :=
  match ty with
  | some v => decide (128 ≤ v.emod 256)
  | none => false

instance exceptDecEq {ε α : Type} [DecidableEq ε] [DecidableEq α] :
    DecidableEq (Except ε α) := fun a b =>
  match a, b with
  | .ok x, .ok y =>
      if h : x = y then isTrue (by rw [h]) else isFalse (by simp [h])
  | .error x, .error y =>
      if h : x = y then isTrue (by rw [h]) else isFalse (by simp [h])
  | .ok _, .error _ => isFalse (by simp)
  | .error _, .ok _ => isFalse (by simp)

/-- One `HitObjects` row.  `parts[5].split(':')` throws a `TypeError` when
the row of a hold-typed note has no sixth field (`parts[5]` is
`undefined`); every other malformed field just yields `NaN` components. -/
def parseHitObjectLine (circleSize : Option Int) (line : List Char) :
    Except String OsuHitObject :=
  let parts := splitOnChar ',' line
  let x := jsParseIntAt parts 0
  let y := jsParseIntAt parts 1
  let time := jsParseIntAt parts 2
  let ty := jsParseIntAt parts 3
  let hitSound := jsParseIntAt parts 4
  -- let column = Math.floor(x * circleSize / 512)
  let column0 : Option Int :=
    match x, circleSize with
    | some xv, some cs => some (Int.fdiv (xv * cs) 512)
    | _, _ => none
  -- quadrant mapping for circleSize === 4 (NaN circleSize skips it)
  let column1 : Option Int :=
    if circleSize = some 4 then
      let snap := jsFloorDivInt time 20
      let variance : Option Int :=
        match snap, column0 with
        | some a, some b => some (Int.tmod (a + b) 2)
        | _, _ => none
      if column0 = some 0 then (if variance = some 0 then some 5 else some 4)
      else if column0 = some 1 then (if variance = some 0 then some 6 else some 7)
      else if column0 = some 2 then (if variance = some 0 then some 0 else some 1)
      else if column0 = some 3 then (if variance = some 0 then some 2 else some 3)
      else column0
    else column0
  -- const clampedColumn = Math.max(0, Math.min(column, 7)) (NaN stays NaN)
  let clampedColumn : Option Int :=
    match column1 with
    | some v => some (max 0 (min v 7))
    | none => none
  if hasHoldBit ty then
    match parts.get? 5 with
    | none => Except.error "TypeError: cannot read split of undefined"
    | some extra =>
        let endT := jsParseInt ((splitOnChar ':' extra).getD 0 [])
        Except.ok { x := x, y := y, time := time, ty := ty, hitSound := hitSound,
                    endTime := some endT, column := clampedColumn }
  else
    Except.ok { x := x, y := y, time := time, ty := ty, hitSound := hitSound,
                endTime := none, column := clampedColumn }

/-- Destructuring `const [key, value] = line.split(':').map(s => s.trim())` (only the first
two parts are used; a missing part is modelled as the empty string). -/
def kvOf (line : List Char) : List Char × List Char :=
  let ps := (splitOnChar ':' line).map trimChars
  (ps.getD 0 [], ps.getD 1 [])

/-- Lower-cased character list (for the case-insensitive comparisons of the
source). -/
def lowerChars (l : List Char) : List Char :=
  l.map Char.toLower

/-- The background-image file-name test
`bgName.match(/\.(jpg|jpeg|png)$/i)`. -/
def isImageName (l : List Char) : Bool :=
  let low := lowerChars l
  List.isSuffixOf ".jpg".data low ∨ List.isSuffixOf ".jpeg".data low ∨
    List.isSuffixOf ".png".data low

/-- The `General` section branch of the `parseOsuText` loop. -/
def parseGeneralLine (st : PState) (line : List Char) : PState :=
  let kv := kvOf line
  if kv.1 = "AudioFilename".data then
    { st with data := { st.data with audioFilename := ⟨kv.2⟩ } }
  else st

/-- The `Metadata` section branch of the `parseOsuText` loop. -/
def parseMetadataLine (st : PState) (line : List Char) : PState :=
  let kv := kvOf line
  if kv.1 = "Title".data then
    { st with data := { st.data with title := ⟨kv.2⟩ } }
  else if kv.1 = "Artist".data then
    { st with data := { st.data with artist := ⟨kv.2⟩ } }
  else if kv.1 = "Creator".data then
    { st with data := { st.data with creator := ⟨kv.2⟩ } }
  else if kv.1 = "Version".data then
    { st with data := { st.data with version := ⟨kv.2⟩ } }
  else st

/-- The `Difficulty` section branch of the `parseOsuText` loop. -/
def parseDifficultyLine (st : PState) (line : List Char) : PState :=
  let kv := kvOf line
  if kv.1 = "CircleSize".data then
    { st with circleSize := jsParseInt kv.2 }
  else st

/-- The `Events` section branch of the `parseOsuText` loop (background image
rows start with `0,0,`). -/
def parseEventsLine (st : PState) (line : List Char) : PState :=
  if List.isPrefixOf "0,0,".data line then
    let parts := splitOnChar ',' line
    if parts.length ≥ 3 then
      let bgName0 := parts.getD 2 []
      let bgName :=
        if bgName0.head? = some '"' ∧ bgName0.getLast? = some '"' then
          (bgName0.drop 1).dropLast
        else bgName0
      if st.data.backgroundImage = none ∧ isImageName bgName then
        { st with data := { st.data with backgroundImage := some ⟨bgName⟩ } }
      else st
    else st
  else st

/-- The `TimingPoints` section branch of the `parseOsuText` loop. -/
def parseTimingPointsLine (st : PState) (line : List Char) : PState :=
  let parts := splitOnChar ',' line
  if parts.length ≥ 2 then
    let tp : TimingPoint :=
      { time := jsParseFloat (parts.getD 0 []),
        beatLength := jsParseFloat (parts.getD 1 []),
        uninherited :=
          if parts.length ≥ 7 then decide (parts.getD 6 [] ≠ "0".data) else true }
    { st with timingPoints := st.timingPoints ++ [tp] }
  else st

/-- One line of the `parseOsuText` loop: empty/comment lines are skipped, a
bracketed line switches the section, and otherwise the line is handed to
the current section's branch (unknown sections fall through unchanged). -/
def parseLine (st : PState) (raw : List Char) : Except String PState :=
  let line := trimChars raw
  if line.isEmpty then Except.ok st
  else if List.isPrefixOf "//".data line then Except.ok st
  else if List.isPrefixOf "[".data line then
    Except.ok { st with sect := (line.drop 1).dropLast }
  else if st.sect = "General".data then Except.ok (parseGeneralLine st line)
  else if st.sect = "Metadata".data then Except.ok (parseMetadataLine st line)
  else if st.sect = "Difficulty".data then Except.ok (parseDifficultyLine st line)
  else if st.sect = "Events".data then Except.ok (parseEventsLine st line)
  else if st.sect = "TimingPoints".data then
    Except.ok (parseTimingPointsLine st line)
  else if st.sect = "HitObjects".data then
    match parseHitObjectLine st.circleSize line with
    | Except.ok obj =>
        Except.ok { st with data := { st.data with hitObjects := st.data.hitObjects ++ [obj] } }
    | Except.error e => Except.error e
  else Except.ok st

/-- Stable insertion of one element under a JS-style comparator: the
element is placed before the first already-sorted element it compares
less-or-tied to, so ties keep their original relative order. -/
def jsStableInsert {α : Type} (le : α → α → Bool) (a : α) : List α → List α
  | [] => [a]
  | b :: l => if le a b then a :: b :: l else b :: jsStableInsert le a l

/-- Stable sort under a JS-style comparator (insertion sort, processing
from the right so earlier elements end up before their ties). -/
def jsStableSort {α : Type} (le : α → α → Bool) : List α → List α
  | [] => []
  | a :: l => jsStableInsert le a (jsStableSort le l)

/-- The ECMAScript SortCompare of `(a, b) => a.time - b.time`: a `NaN`
difference is coerced to `+0`, so any comparison involving a `NaN` time is
a tie.  `jsSortLe a b` holds when the comparator does not order `a` after
`b` (difference ≤ 0, or a tie). -/
def jsSortLe (a b : OsuHitObject) : Bool :=
  match a.time, b.time with
  | some x, some y => decide (x ≤ y)
  | _, _ => true

/-- Model of `data.hitObjects.sort((a, b) => a.time - b.time)`.  On a chart
whose times all parse the comparator is consistent and every stable sort —
the engine's included — yields this result; with a `NaN` time present the
comparator is inconsistent and the engine's order is implementation-
defined, and this model fixes the standard stable insertion sort, which
keeps every `NaN`-involving pair (a tie under SortCompare) in its original
relative order, as the engine's sort does on the concrete charts below. -/
def jsSortByTime (l : List OsuHitObject) : List OsuHitObject :=
  jsStableSort jsSortLe l

/-- JS `Math.round` for a positive rational (round half up). -/
def jsRound (q : ℚ) : Int :=
  ⌊q + 1 / 2⌋

/-- JS `Math.max(0, a - b)` on possibly-`NaN` rationals. -/
def jsMax0Sub (a b : Option ℚ) : Option ℚ :=
  match a, b with
  | some x, some y => some (max 0 (x - y))
  | _, _ => none

/-- Update `(bpmCounts[bl] || 0) + duration` as an assoc-list update: a `NaN`
accumulated value is falsy and restarts from `0`. -/
def bumpCount (counts : List (ℚ × Option ℚ)) (key : ℚ) (dur : Option ℚ) :
    List (ℚ × Option ℚ) :=
  let base : ℚ :=
    match counts.find? (fun e => decide (e.1 = key)) with
    | some e => match e.2 with
                | some v => v
                | none => 0
    | none => 0
  let newV : Option ℚ :=
    match dur with
    | some d => some (base + d)
    | none => none
  match counts.find? (fun e => decide (e.1 = key)) with
  | some _ => counts.map (fun e => if e.1 = key then (e.1, newV) else e)
  | none => counts ++ [(key, newV)]

/-- The `duration` attribution loop over the sorted uninherited timing points
(index-recursive like the source's `for` loop). -/
def accumulateDurations (lastObjTime : ℚ) (pts : List TimingPoint) :
    List (ℚ × Option ℚ) :=
  (List.range pts.length).foldl
    (fun counts i =>
      match pts.get? i with
      | none => counts
      | some pt =>
          let nextTime : Option ℚ :=
            if i = pts.length - 1 then some lastObjTime
            else match pts.get? (i + 1) with
                 | some nxt => nxt.time
                 | none => some lastObjTime
          let duration := jsMax0Sub nextTime pt.time
          let roundedBL : ℚ :=
            match pt.beatLength with
            | some b => (jsRound (b * 10) : ℚ) / 10
            | none => 0
          if roundedBL > 0 then bumpCount counts roundedBL duration
          else counts)
    []

/-- The `TimingPoints`-derived main BPM (`parseOsuText`, final block).
Timing-point times may be `NaN`; the sort uses the same SortCompare tie
rule as the hit-object sort.  (JS iterates `Object.entries` keys in
numeric order; this model keeps insertion order — the claims do not touch
the tempo value.) -/
def deriveBpm (d : OsuData) (timingPoints : List TimingPoint) : Int :=
  if timingPoints.isEmpty then d.bpm
  else
    let lastObjTime : ℚ :=
      match d.hitObjects.getLast? with
      | some o => match o.time with
                  | some v => if v = 0 then 0 else (v : ℚ)
                  | none => 0
      | none => 0
    let redPoints := timingPoints.filter fun tp =>
      tp.uninherited && (match tp.beatLength with
                         | some b => decide (b > 0)
                         | none => false)
    if redPoints.isEmpty then d.bpm
    else
      let sorted := jsStableSort
        (fun a b =>
          match a.time, b.time with
          | some x, some y => decide (x ≤ y)
          | _, _ => true) redPoints
      let counts := accumulateDurations lastObjTime sorted
      let best :=
        counts.foldl
          (fun acc e =>
            match e.2 with
            | some dur => if dur > acc.1 then (dur, e.1) else acc
            | none => acc)
          ((-1 : ℚ), (500 : ℚ))
      if best.2 > 0 then jsRound (60000 / best.2) else d.bpm

/-- Final phase of `parseOsuText`: sort the timeline by time, then derive
the tempo. -/
def finalizeData (st : PState) : OsuData :=
  let sorted := jsSortByTime st.data.hitObjects
  let d := { st.data with hitObjects := sorted }
  { d with bpm := deriveBpm d st.timingPoints }

/-- Source function `parseOsuText`. -/
def parseOsuText (text : String) : Except String OsuData :=
  match (splitOnChar '\n' text.data).foldlM parseLine initPState with
  | Except.ok st => Except.ok (finalizeData st)
  | Except.error e => Except.error e

/-- The output of `parseOSZ`: the chart data (background reference already
resolved against the container) plus whether the audio reference resolved.
Binary asset decoding (audio buffers, object URLs) is not modelled. -/
structure OsuBeatmap where
  data : OsuData
  hasAudio : Bool
deriving DecidableEq, Repr

/-- Case-insensitive file-name equality (`filename.toLowerCase() === ref.toLowerCase()`). -/
def lowerEqName (a b : String) : Bool :=
  decide (lowerChars a.data = lowerChars b.data)

/-- Source function `parseOSZ`: the container is the list of (file name, text content)
entries in archive order.  Fails when no `.osu` entry exists or its content
is empty (falsy), propagates `parseOsuText` errors, tolerates unresolved
audio/background references. -/
def parseOSZ (files : List (String × String)) : Except String OsuBeatmap :=
  match files.find? (fun f => List.isSuffixOf ".osu".data f.1.data) with
  | none => Except.error "No .osu file found in the archive."
  | some f =>
      if f.2.data.isEmpty then Except.error "Could not read .osu file."
      else
        match parseOsuText f.2 with
        | Except.error e => Except.error e
        | Except.ok d =>
            let audio := files.find? (fun g => lowerEqName g.1 d.audioFilename)
            let bg : Option String :=
              match d.backgroundImage with
              | none => none
              | some bgName =>
                  match files.find? (fun g => lowerEqName g.1 bgName) with
                  | some _ => some bgName
                  | none => none
            Except.ok { data := { d with backgroundImage := bg },
                        hasAudio := audio.isSome }

/-! ## Spec-side definitions used by the theorem statements -/

/-- Points awarded per grade (spec §4.3). -/
def gradePoints : Grade → Nat
  | .perfect => 300
  | .good => 100
  | .bad => 50
  | .miss => 0

/-- The monotonically non-decreasing fields of C10. -/
def ScoreMono (s s₁ : EngineState) : Prop :=
  s.score ≤ s₁.score ∧ s.maxCombo ≤ s₁.maxCombo ∧ s.perfect ≤ s₁.perfect ∧
    s.good ≤ s₁.good ∧ s.bad ≤ s₁.bad ∧ s.miss ≤ s₁.miss

/-- How one engine step extends the judgement record: processed indices only
grow, the judgement log only gets appended to, and every appended event
judges a note that was not processed before the step and is processed after
it (appended events are for pairwise-distinct notes). -/
def JudgeExtend (s s₁ : EngineState) : Prop :=
  (∀ i, i ∈ s.processedIndices → i ∈ s₁.processedIndices) ∧
  ∃ ext, s₁.judgeLog = s.judgeLog ++ ext ∧
    (∀ e ∈ ext, e.1 ∉ s.processedIndices ∧ e.1 ∈ s₁.processedIndices) ∧
    ext.Pairwise (fun a b => a.1 ≠ b.1)

/-- State well-formation: every note has been judged at most once, and
judged notes are marked processed. -/
def Inv (s : EngineState) : Prop :=
  (∀ i, countLog s i ≤ 1) ∧ ∀ e ∈ s.judgeLog, e.1 ∈ s.processedIndices

/-- Comparison of two (possibly `NaN`) note times, two `NaN`-involving times
counting as ordered. -/
def timeLeB (a b : OsuHitObject) : Bool :=
  match a.time, b.time with
  | some x, some y => decide (x ≤ y)
  | _, _ => true

/-- All-pairs sortedness by time over the parsed values: every pair (in
list order) whose times both parsed must be ordered; a pair involving a
`NaN` time is unconstrained, as it is for the JS comparator. -/
def pairwiseTimeLeB : List OsuHitObject → Bool
  | [] => true
  | a :: l => (l.all fun b => timeLeB a b) && pairwiseTimeLeB l

/-- A note's lane lies in `[0, 7]` (a `NaN` lane lies in no range). -/
def colInRangeB (o : OsuHitObject) : Bool :=
  match o.column with
  | some v => decide (0 ≤ v ∧ v ≤ 7)
  | none => false

/-- A hold note satisfies `endTime > time` (false on `NaN`, as the JS
comparison would be); trivially true for a tap note. -/
def holdOKB (o : OsuHitObject) : Bool :=
  match o.endTime with
  | some e =>
      match e, o.time with
      | some ev, some tv => decide (tv < ev)
      | _, _ => false
  | none => true

/-- The Timeline invariants claimed by C7, stated over the decoder's output:
sorted non-decreasing by time (over the parsed time values), every lane in
`[0, 7]`, every hold with `endTime > time`. -/
def TimelineClaimOK (l : List OsuHitObject) : Prop :=
  pairwiseTimeLeB l = true ∧ (∀ o ∈ l, colInRangeB o = true) ∧
    ∀ o ∈ l, holdOKB o = true

instance (l : List OsuHitObject) : Decidable (TimelineClaimOK l) := by
  unfold TimelineClaimOK
  infer_instance

/-- Decoded form of the one-note sample chart used in witnesses. -/
def sampleChartData : OsuData :=
  { title := "Unknown", artist := "Unknown", creator := "Unknown",
    version := "Normal", audioFilename := "", backgroundImage := none,
    hitObjects := [{ x := some 64, y := some 0, time := some 200,
                     ty := some 1, hitSound := some 0, endTime := none,
                     column := some 5 }],
    bpm := 120 }

/-! ## Basic lemmas about the engine operations -/

@[simp] theorem registerHit_processedIndices (g : Grade) (s : EngineState) :
    (registerHit g s).processedIndices = s.processedIndices := by
  cases g <;> rfl

@[simp] theorem registerHit_judgeLog (g : Grade) (s : EngineState) :
    (registerHit g s).judgeLog = s.judgeLog := by
  cases g <;> rfl

@[simp] theorem registerHit_holdingIndices (g : Grade) (s : EngineState) :
    (registerHit g s).holdingIndices = s.holdingIndices := by
  cases g <;> rfl

@[simp] theorem registerHit_flashEvents (g : Grade) (s : EngineState) :
    (registerHit g s).flashEvents = s.flashEvents := by
  cases g <;> rfl

theorem registerHit_currentPoints (g : Grade) (s : EngineState) :
    currentPoints (registerHit g s) = currentPoints s + gradePoints g := by
  cases g <;> simp only [currentPoints, registerHit, gradePoints] <;> ring

theorem registerHit_hitsSoFar (g : Grade) (s : EngineState) :
    hitsSoFar (registerHit g s) = hitsSoFar s + 1 := by
  cases g <;> simp only [hitsSoFar, registerHit] <;> ring

@[simp] theorem detectPatterns_judgeLog (tl : List HitObject) (t : Int)
    (s : EngineState) : (detectPatterns tl t s).judgeLog = s.judgeLog := by
  simp only [detectPatterns]; split <;> rfl

@[simp] theorem detectPatterns_processedIndices (tl : List HitObject) (t : Int)
    (s : EngineState) :
    (detectPatterns tl t s).processedIndices = s.processedIndices := by
  simp only [detectPatterns]; split <;> rfl

@[simp] theorem detectPatterns_holdingIndices (tl : List HitObject) (t : Int)
    (s : EngineState) :
    (detectPatterns tl t s).holdingIndices = s.holdingIndices := by
  simp only [detectPatterns]; split <;> rfl

@[simp] theorem detectPatterns_score (tl : List HitObject) (t : Int)
    (s : EngineState) : (detectPatterns tl t s).score = s.score := by
  simp only [detectPatterns]; split <;> rfl

@[simp] theorem detectPatterns_combo (tl : List HitObject) (t : Int)
    (s : EngineState) : (detectPatterns tl t s).combo = s.combo := by
  simp only [detectPatterns]; split <;> rfl

@[simp] theorem detectPatterns_maxCombo (tl : List HitObject) (t : Int)
    (s : EngineState) : (detectPatterns tl t s).maxCombo = s.maxCombo := by
  simp only [detectPatterns]; split <;> rfl

@[simp] theorem detectPatterns_perfect (tl : List HitObject) (t : Int)
    (s : EngineState) : (detectPatterns tl t s).perfect = s.perfect := by
  simp only [detectPatterns]; split <;> rfl

@[simp] theorem detectPatterns_good (tl : List HitObject) (t : Int)
    (s : EngineState) : (detectPatterns tl t s).good = s.good := by
  simp only [detectPatterns]; split <;> rfl

@[simp] theorem detectPatterns_bad (tl : List HitObject) (t : Int)
    (s : EngineState) : (detectPatterns tl t s).bad = s.bad := by
  simp only [detectPatterns]; split <;> rfl

@[simp] theorem detectPatterns_miss (tl : List HitObject) (t : Int)
    (s : EngineState) : (detectPatterns tl t s).miss = s.miss := by
  simp only [detectPatterns]; split <;> rfl

/-! ## Timing-window lemmas (`handleInput` grade branches) -/

theorem gradeOf_eq_perfect {d : Int} (h : |d| ≤ 80) :
    gradeOf d = some .perfect := by
  unfold gradeOf HIT_WINDOW_PERFECT
  rw [if_pos h]

theorem gradeOf_eq_good {d : Int} (h₁ : 80 < |d|) (h₂ : |d| ≤ 120) :
    gradeOf d = some .good := by
  unfold gradeOf HIT_WINDOW_PERFECT HIT_WINDOW_GOOD
  rw [if_neg (not_le.mpr h₁), if_pos h₂]

theorem gradeOf_eq_bad {d : Int} (h₁ : 120 < d) (h₂ : d ≤ 160) :
    gradeOf d = some .bad := by
  have habs : 120 < |d| := lt_of_lt_of_le h₁ (le_abs_self d)
  unfold gradeOf HIT_WINDOW_PERFECT HIT_WINDOW_GOOD HIT_WINDOW_BAD
  rw [if_neg (not_le.mpr (lt_trans (by norm_num) habs)),
      if_neg (not_le.mpr habs), if_pos ⟨h₁, h₂⟩]

theorem gradeOf_bad_inv {d : Int} (h : gradeOf d = some .bad) :
    120 < d ∧ d ≤ 160 := by
  unfold gradeOf HIT_WINDOW_PERFECT HIT_WINDOW_GOOD HIT_WINDOW_BAD at h
  split_ifs at h with h1 h2 h3
  all_goals simp_all

theorem gradeOf_late_none {d : Int} (h : d < -120) : gradeOf d = none := by
  have habs : 120 < |d| := by
    rw [abs_of_neg (by omega)]; omega
  unfold gradeOf HIT_WINDOW_PERFECT HIT_WINDOW_GOOD HIT_WINDOW_BAD
  rw [if_neg (not_le.mpr (lt_trans (by norm_num) habs)),
      if_neg (not_le.mpr habs), if_neg (fun hc => absurd hc.1 (by omega))]

theorem handleKeyDown_judgeLog_of_best (tl : List HitObject) (lanes : List Nat)
    (t : Int) (s : EngineState) {idx : Nat} {note : HitObject}
    (h : bestHitFor tl s lanes t = some (idx, note)) :
    (handleKeyDown tl lanes t s).judgeLog =
      s.judgeLog ++ (gradeOf (note.time - t)).elim [] (fun g => [(idx, g)]) := by
  unfold handleKeyDown judgePhase
  rw [h]
  cases hg : gradeOf (note.time - t) with
  | none => simp [hg]
  | some g => simp [hg]

/-! ## C1 — timing windows on key-down matches -/

/-- C1: for a key-down press whose best candidate has
`diff = note.time - engineClock`, `|diff| ≤ 80` resolves the note as
Perfect, `80 < |diff| ≤ 120` as Good, `120 < diff ≤ 160` as Bad; in
particular `diff = 0` is Perfect, `diff = 81` Good, `diff = 150` Bad, and a
press whose only note stands at `diff = -121` or `diff = 170` resolves no
note at all. -/
theorem claim_C1 :
    (∀ d : Int,
      (|d| ≤ 80 → gradeOf d = some .perfect) ∧
      (80 < |d| ∧ |d| ≤ 120 → gradeOf d = some .good) ∧
      (120 < d ∧ d ≤ 160 → gradeOf d = some .bad)) ∧
    gradeOf 0 = some .perfect ∧ gradeOf 81 = some .good ∧
    gradeOf 150 = some .bad ∧
    (∀ (tl : List HitObject) (lanes : List Nat) (t : Int) (s : EngineState)
        (idx : Nat) (note : HitObject),
      bestHitFor tl s lanes t = some (idx, note) →
        (handleKeyDown tl lanes t s).judgeLog =
          s.judgeLog ++ (gradeOf (note.time - t)).elim [] (fun g => [(idx, g)])) ∧
    (handleKeyDown [⟨1000, none, 0⟩] [0, 1] 1121 initState).judgeLog = [] ∧
    (handleKeyDown [⟨1000, none, 0⟩] [0, 1] 1121 initState).processedIndices = [] ∧
    (handleKeyDown [⟨1000, none, 0⟩] [0, 1] 830 initState).judgeLog = [] ∧
    (handleKeyDown [⟨1000, none, 0⟩] [0, 1] 830 initState).processedIndices = [] := by
  refine ⟨?_, by decide, by decide, by decide, ?_, by decide, by decide,
    by decide, by decide⟩
  · intro d
    exact ⟨fun h => gradeOf_eq_perfect h, fun h => gradeOf_eq_good h.1 h.2,
      fun h => gradeOf_eq_bad h.1 h.2⟩
  · intro tl lanes t s idx note h
    exact handleKeyDown_judgeLog_of_best tl lanes t s h

/-- Witness for C1: the window implications and the best-candidate equation
applied at concrete inputs. -/
theorem claim_C1_witness :
    gradeOf 0 = some .perfect ∧ gradeOf 81 = some .good ∧
    gradeOf 150 = some .bad ∧
    (handleKeyDown [⟨1000, none, 0⟩] [0, 1] 1000 initState).judgeLog =
      initState.judgeLog ++
        (gradeOf ((1000 : Int) - 1000)).elim [] (fun g => [(0, g)]) :=
  ⟨(claim_C1.1 0).1 (by decide), (claim_C1.1 81).2.1 (by decide),
   (claim_C1.1 150).2.2 (by decide),
   claim_C1.2.2.2.2.1 [⟨1000, none, 0⟩] [0, 1] 1000 initState 0 ⟨1000, none, 0⟩
     (by decide)⟩

/-! ## C2 — which side of the note the Bad window sits on -/

/-- C2 counterexample: a press at engine clock 1000 on a note at time 1150
(`diff = 150`, an *early* press — the note's time has not passed) resolves
the note as Bad, contradicting the claim that Bad is assigned only when
`engineClock > note.time`. -/
theorem claim_C2_cex :
    statusOf (handleKeyDown [⟨1150, none, 0⟩] [0, 1] 1000 initState) 0
      = NoteStatus.resolved .bad ∧ (1000 : Int) < 1150 := by
  decide

/-- C2 (amended): the Bad grade is assigned only when the input is *early* —
`120 < note.time - engineClock ≤ 160`, so the note's time has **not** yet
passed (`engineClock < note.time`); a late input beyond the Good window
(`diff < -120`) never yields a Bad — it resolves no note. -/
theorem claim_C2_amended :
    (∀ d : Int, gradeOf d = some .bad → 120 < d ∧ d ≤ 160) ∧
    (∀ (tl : List HitObject) (lanes : List Nat) (t : Int) (s : EngineState)
        (idx : Nat) (note : HitObject),
      bestHitFor tl s lanes t = some (idx, note) →
        gradeOf (note.time - t) = some .bad → t < note.time) ∧
    (∀ d : Int, d < -120 → gradeOf d = none) := by
  refine ⟨fun d h => gradeOf_bad_inv h, ?_, fun d h => gradeOf_late_none h⟩
  intro tl lanes t s idx note _ hg
  have := (gradeOf_bad_inv hg).1
  omega

/-- Witness for C2 (amended) at `diff = 150` and `diff = -121`. -/
theorem claim_C2_witness :
    (120 < (150 : Int) ∧ (150 : Int) ≤ 160) ∧ gradeOf (-121) = none :=
  ⟨claim_C2_amended.1 150 (by decide), claim_C2_amended.2.2 (-121) (by decide)⟩

/-! ## C5 — the scoring fold -/

/-- C5: the scoring tracker folds each judgement event as specified: Miss
zeroes the combo and bumps `missCount`; Perfect/Good/Bad add 300/100/50
points, bump their counter and the combo; and after every non-Miss
judgement `maxCombo = max maxCombo combo`. -/
theorem claim_C5 (s : EngineState) :
    ((registerHit .miss s).combo = 0 ∧ (registerHit .miss s).miss = s.miss + 1) ∧
    ((registerHit .perfect s).score = s.score + 300 ∧
      (registerHit .perfect s).perfect = s.perfect + 1 ∧
      (registerHit .perfect s).combo = s.combo + 1) ∧
    ((registerHit .good s).score = s.score + 100 ∧
      (registerHit .good s).good = s.good + 1 ∧
      (registerHit .good s).combo = s.combo + 1) ∧
    ((registerHit .bad s).score = s.score + 50 ∧
      (registerHit .bad s).bad = s.bad + 1 ∧
      (registerHit .bad s).combo = s.combo + 1) ∧
    ∀ g, g ≠ Grade.miss →
      (registerHit g s).maxCombo = max s.maxCombo ((registerHit g s).combo) := by
  refine ⟨⟨rfl, rfl⟩, ⟨rfl, rfl, rfl⟩, ⟨rfl, rfl, rfl⟩, ⟨rfl, rfl, rfl⟩, ?_⟩
  intro g hg
  cases g with
  | miss => exact absurd rfl hg
  | perfect => simp only [registerHit]; split <;> omega
  | good => simp only [registerHit]; split <;> omega
  | bad => simp only [registerHit]; split <;> omega

/-- Witness for C5: the max-combo equation at the initial state. -/
theorem claim_C5_witness :
    (registerHit .perfect initState).maxCombo
      = max initState.maxCombo ((registerHit .perfect initState).combo) :=
  (claim_C5 initState).2.2.2.2 Grade.perfect (by decide)

/-! ## C6 — accuracy -/

theorem foldRegister_stats (evs : List Grade) : ∀ s : EngineState,
    currentPoints (evs.foldl (fun s g => registerHit g s) s) =
      currentPoints s + (evs.map gradePoints).sum ∧
    hitsSoFar (evs.foldl (fun s g => registerHit g s) s) =
      hitsSoFar s + evs.length := by
  induction evs with
  | nil => intro s; simp
  | cons g evs ih =>
      intro s
      simp only [List.foldl_cons, List.map_cons, List.sum_cons, List.length_cons]
      have h := ih (registerHit g s)
      rw [h.1, h.2, registerHit_currentPoints, registerHit_hitsSoFar]
      omega

/-- C6: at every point of a run, accuracy equals
(points earned) / (judged notes × 300) × 101 (judged notes include Misses),
and equals 101 — not 0 — when nothing is judged yet; after a single Perfect
it is 101, and after one Perfect plus one Miss it is exactly 50.5. -/
theorem claim_C6 :
    (∀ evs : List Grade,
      accuracy (evs.foldl (fun s g => registerHit g s) initState) =
        if evs.isEmpty then 101
        else (((evs.map gradePoints).sum : ℚ) / ((evs.length : ℚ) * 300)) * 101) ∧
    accuracy initState = 101 ∧
    accuracy (registerHit .perfect initState) = 101 ∧
    accuracy ([Grade.perfect, Grade.miss].foldl (fun s g => registerHit g s)
      initState) = 50.5 := by
  have hmain : ∀ evs : List Grade,
      accuracy (evs.foldl (fun s g => registerHit g s) initState) =
        if evs.isEmpty then 101
        else (((evs.map gradePoints).sum : ℚ) / ((evs.length : ℚ) * 300)) * 101 := by
    intro evs
    have h := foldRegister_stats evs initState
    cases evs with
    | nil => simp [accuracy, hitsSoFar, initState]
    | cons g evs =>
        rw [if_neg (by simp)]
        unfold accuracy
        rw [h.1, h.2]
        have hpos : 0 < hitsSoFar initState + (g :: evs).length := by
          simp [hitsSoFar, initState]
        rw [if_pos (by positivity)]
        have h0 : currentPoints initState = 0 := rfl
        have h1 : hitsSoFar initState = 0 := rfl
        rw [h0, h1]
        push_cast
        ring
  refine ⟨hmain, by simp [accuracy, hitsSoFar, initState], ?_, ?_⟩
  · have := hmain [Grade.perfect]
    simp only [List.foldl_cons, List.foldl_nil] at this
    rw [this]
    norm_num [gradePoints]
  · rw [hmain [Grade.perfect, Grade.miss]]
    norm_num [gradePoints]

/-! ## Judgement-stream machinery (towards C3 and C4) -/

theorem judgeExtend_refl (s : EngineState) : JudgeExtend s s :=
  ⟨fun _ h => h, [], by simp, by simp, List.Pairwise.nil⟩

theorem judgeExtend_of_eq {s s₁ : EngineState}
    (hp : s₁.processedIndices = s.processedIndices)
    (hl : s₁.judgeLog = s.judgeLog) : JudgeExtend s s₁ :=
  ⟨fun i h => hp ▸ h, [], by simp [hl], by simp, List.Pairwise.nil⟩

theorem judgeExtend_trans {s₁ s₂ s₃ : EngineState}
    (h₁ : JudgeExtend s₁ s₂) (h₂ : JudgeExtend s₂ s₃) : JudgeExtend s₁ s₃ := by
  obtain ⟨m₁, ext₁, hl₁, he₁, hw₁⟩ := h₁
  obtain ⟨m₂, ext₂, hl₂, he₂, hw₂⟩ := h₂
  refine ⟨fun i hi => m₂ i (m₁ i hi), ext₁ ++ ext₂, ?_, ?_, ?_⟩
  · rw [hl₂, hl₁, List.append_assoc]
  · intro e he
    rcases List.mem_append.1 he with hm | hm
    · exact ⟨(he₁ e hm).1, m₂ _ (he₁ e hm).2⟩
    · exact ⟨fun hc => (he₂ e hm).1 (m₁ _ hc), (he₂ e hm).2⟩
  · rw [List.pairwise_append]
    refine ⟨hw₁, hw₂, fun a ha b hb => fun hab => ?_⟩
    exact (he₂ b hb).1 (hab ▸ (he₁ a ha).2)

theorem judgeExtend_push {s s₁ : EngineState} {idx : Nat} {g : Grade}
    (hidx : idx ∉ s.processedIndices)
    (hp : s₁.processedIndices = idx :: s.processedIndices)
    (hl : s₁.judgeLog = s.judgeLog ++ [(idx, g)]) : JudgeExtend s s₁ := by
  refine ⟨fun i hi => by rw [hp]; exact List.mem_cons_of_mem _ hi,
    [(idx, g)], hl, ?_, by simp⟩
  intro e he
  rw [List.mem_singleton] at he
  subst he
  exact ⟨hidx, by rw [hp]; exact List.mem_cons_self _ _⟩

theorem closestCandidate_mem {t : Int} : ∀ {l : List (Nat × HitObject)}
    {c : Nat × HitObject}, closestCandidate t l = some c → c ∈ l := by
  intro l
  induction l with
  | nil => intro c h; simp [closestCandidate] at h
  | cons a l ih =>
      intro c h
      unfold closestCandidate at h
      cases hrec : closestCandidate t l with
      | none =>
          simp only [hrec] at h
          injection h with h
          subst h
          exact List.mem_cons_self _ _
      | some d =>
          simp only [hrec] at h
          split at h
          · injection h with h
            subst h
            exact List.mem_cons_of_mem _ (ih hrec)
          · injection h with h
            subst h
            exact List.mem_cons_self _ _

theorem laneCandidates_spec {tl : List HitObject} {s : EngineState} {col : Nat}
    {t : Int} {p : Nat × HitObject} (h : p ∈ laneCandidates tl s col t) :
    p.1 ∉ s.processedIndices ∧ tl.get? p.1 = some p.2 ∧
      p.2.time - t < HIT_WINDOW_BAD := by
  obtain ⟨i, o⟩ := p
  unfold laneCandidates at h
  rw [List.mem_filter] at h
  obtain ⟨hmem, hcond⟩ := h
  rw [decide_eq_true_eq] at hcond
  exact ⟨hcond.2.1, List.mk_mem_enum_iff_get?.1 hmem, hcond.2.2⟩

theorem bestHitFor_spec {tl : List HitObject} {s : EngineState}
    {lanes : List Nat} {t : Int} {idx : Nat} {note : HitObject}
    (h : bestHitFor tl s lanes t = some (idx, note)) :
    idx ∉ s.processedIndices ∧ tl.get? idx = some note ∧
      note.time - t < HIT_WINDOW_BAD := by
  unfold bestHitFor at h
  suffices haux : ∀ (ls : List Nat) (acc : Option (Nat × HitObject)),
      (∀ q, acc = some q → q.1 ∉ s.processedIndices ∧ tl.get? q.1 = some q.2 ∧
        q.2.time - t < HIT_WINDOW_BAD) →
      ∀ r, ls.foldl (laneBestStep tl s t) acc = some r →
        r.1 ∉ s.processedIndices ∧ tl.get? r.1 = some r.2 ∧
          r.2.time - t < HIT_WINDOW_BAD by
    exact haux lanes none (by intro q hq; cases hq) (idx, note) h
  intro ls
  induction ls with
  | nil => intro acc hacc r hr; exact hacc r hr
  | cons col ls ih =>
      intro acc hacc r hr
      rw [List.foldl_cons] at hr
      refine ih _ ?_ r hr
      intro q hq
      unfold laneBestStep at hq
      cases hcc : closestCandidate t (laneCandidates tl s col t) with
      | none =>
          simp only [hcc] at hq
          exact hacc q hq
      | some c =>
          have hc := laneCandidates_spec (closestCandidate_mem hcc)
          cases acc with
          | none =>
              simp only [hcc] at hq
              injection hq with hq
              subst hq
              exact hc
          | some b =>
              simp only [hcc] at hq
              split at hq
              · injection hq with hq
                subst hq
                exact hc
              · injection hq with hq
                subst hq
                exact hacc b rfl

theorem judgePhase_cases (tl : List HitObject) (lanes : List Nat) (t : Int)
    (s : EngineState) :
    judgePhase tl lanes t s = s ∨
    ∃ idx note g, bestHitFor tl s lanes t = some (idx, note) ∧
      idx ∉ s.processedIndices ∧ gradeOf (note.time - t) = some g ∧
      judgePhase tl lanes t s =
        registerHit g
          { s with processedIndices := idx :: s.processedIndices,
                   holdingIndices :=
                     if jsTruthyInt note.endTime then s.holdingIndices ++ [idx]
                     else s.holdingIndices,
                   judgeLog := s.judgeLog ++ [(idx, g)] } := by
  cases hb : bestHitFor tl s lanes t with
  | none => left; unfold judgePhase; simp only [hb]
  | some p =>
      obtain ⟨idx, note⟩ := p
      cases hg : gradeOf (note.time - t) with
      | none => left; unfold judgePhase; simp only [hb, hg]
      | some g =>
          right
          refine ⟨idx, note, g, rfl, (bestHitFor_spec hb).1, hg, ?_⟩
          unfold judgePhase
          simp only [hb, hg]

theorem judgePhase_judgeExtend (tl : List HitObject) (lanes : List Nat)
    (t : Int) (s : EngineState) : JudgeExtend s (judgePhase tl lanes t s) := by
  rcases judgePhase_cases tl lanes t s with h | ⟨idx, note, g, _, hidx, _, h⟩
  · rw [h]; exact judgeExtend_refl s
  · rw [h]
    exact @judgeExtend_push _ _ idx g hidx (by simp) (by simp)

theorem handleKeyDown_judgeExtend (tl : List HitObject) (lanes : List Nat)
    (t : Int) (s : EngineState) : JudgeExtend s (handleKeyDown tl lanes t s) := by
  unfold handleKeyDown
  exact judgeExtend_trans (judgePhase_judgeExtend tl lanes t s)
    (judgeExtend_of_eq (detectPatterns_processedIndices _ _ _)
      (detectPatterns_judgeLog _ _ _))

theorem keyupVisit_eq (tl : List HitObject) (st : EngineState) (col : Nat) :
    ∃ h, keyupVisit tl st col = { st with holdingIndices := h } := by
  unfold keyupVisit
  split
  · exact ⟨st.holdingIndices, rfl⟩
  · exact ⟨_, rfl⟩

theorem handleKeyUp_eq (tl : List HitObject) (lanes : List Nat) :
    ∀ s : EngineState, ∃ h, handleKeyUp tl lanes s = { s with holdingIndices := h } := by
  induction lanes with
  | nil => intro s; exact ⟨s.holdingIndices, rfl⟩
  | cons col lanes ih =>
      intro s
      obtain ⟨h₁, hv⟩ := keyupVisit_eq tl s col
      obtain ⟨h₂, hrec⟩ := ih (keyupVisit tl s col)
      refine ⟨h₂, ?_⟩
      unfold handleKeyUp at hrec ⊢
      rw [List.foldl_cons, hrec, hv]

theorem handleKeyUp_judgeExtend (tl : List HitObject) (lanes : List Nat)
    (s : EngineState) : JudgeExtend s (handleKeyUp tl lanes s) := by
  obtain ⟨h, hu⟩ := handleKeyUp_eq tl lanes s
  rw [hu]
  exact judgeExtend_of_eq rfl rfl

theorem tickVisit_cases (ns : ℚ) (t : Int) (st : EngineState)
    (p : Nat × HitObject) :
    tickVisit ns t st p = st ∨
    (p.1 ∉ st.processedIndices ∧ p.2.time - t < -HIT_WINDOW_BAD ∧
      tickVisit ns t st p =
        registerHit .miss
          { st with processedIndices := p.1 :: st.processedIndices,
                    judgeLog := st.judgeLog ++ [(p.1, Grade.miss)] }) := by
  simp only [tickVisit]
  split
  · left; rfl
  · split
    · next hc => right; exact ⟨hc.1, hc.2, rfl⟩
    · left; rfl

theorem tickVisit_judgeExtend (ns : ℚ) (t : Int) (st : EngineState)
    (p : Nat × HitObject) : JudgeExtend st (tickVisit ns t st p) := by
  rcases tickVisit_cases ns t st p with h | ⟨hidx, _, h⟩
  · rw [h]; exact judgeExtend_refl st
  · rw [h]
    exact @judgeExtend_push _ _ p.1 Grade.miss hidx (by simp) (by simp)

theorem foldTickVisit_judgeExtend (ns : ℚ) (t : Int) :
    ∀ (l : List (Nat × HitObject)) (s : EngineState),
      JudgeExtend s (l.foldl (tickVisit ns t) s) := by
  intro l
  induction l with
  | nil => intro s; exact judgeExtend_refl s
  | cons p l ih =>
      intro s
      rw [List.foldl_cons]
      exact judgeExtend_trans (tickVisit_judgeExtend ns t s p)
        (ih (tickVisit ns t s p))

theorem handleTick_judgeExtend (tl : List HitObject) (ns : ℚ) (t : Int)
    (s : EngineState) : JudgeExtend s (handleTick tl ns t s) :=
  foldTickVisit_judgeExtend ns t (tickVisible tl ns t s) s

theorem step_judgeExtend (tl : List HitObject) (ns : ℚ) (s : EngineState)
    (e : GEvent) : JudgeExtend s (step tl ns s e) := by
  cases e with
  | keydown lanes t => exact handleKeyDown_judgeExtend tl lanes t s
  | keyup lanes t => exact handleKeyUp_judgeExtend tl lanes s
  | tick t => exact handleTick_judgeExtend tl ns t s

theorem run_judgeExtend (tl : List HitObject) (ns : ℚ) :
    ∀ (evs : List GEvent) (s : EngineState), JudgeExtend s (run tl ns s evs) := by
  intro evs
  induction evs with
  | nil => intro s; exact judgeExtend_refl s
  | cons e evs ih =>
      intro s
      unfold run at ih ⊢
      rw [List.foldl_cons]
      exact judgeExtend_trans (step_judgeExtend tl ns s e) (ih (step tl ns s e))

theorem pairwise_countLog_le_one {ext : List (Nat × Grade)}
    (hw : ext.Pairwise (fun a b => a.1 ≠ b.1)) (i : Nat) :
    (ext.filter fun e => decide (e.1 = i)).length ≤ 1 := by
  induction ext with
  | nil => simp
  | cons a l ih =>
      rw [List.pairwise_cons] at hw
      by_cases ha : a.1 = i
      · rw [List.filter_cons_of_pos (by simp [ha])]
        have hz : l.filter (fun e => decide (e.1 = i)) = [] := by
          rw [List.filter_eq_nil]
          intro e he
          simp only [decide_eq_true_eq]
          intro hei
          exact absurd (ha.trans hei.symm) (hw.1 e he)
        rw [hz]
        simp
      · rw [List.filter_cons_of_neg (by simp [ha])]
        exact ih hw.2

theorem inv_of_judgeExtend {s s₁ : EngineState} (hs : Inv s)
    (h : JudgeExtend s s₁) : Inv s₁ := by
  obtain ⟨mono, ext, hlog, hext, hw⟩ := h
  constructor
  · intro i
    have hsum : countLog s₁ i =
        countLog s i + (ext.filter fun e => decide (e.1 = i)).length := by
      unfold countLog
      rw [hlog, List.filter_append, List.length_append]
    by_cases hc : ∃ e ∈ s.judgeLog, e.1 = i
    · obtain ⟨e, he, hei⟩ := hc
      have hip : i ∈ s.processedIndices := hei ▸ hs.2 e he
      have hz : (ext.filter fun e => decide (e.1 = i)).length = 0 := by
        rw [List.length_eq_zero, List.filter_eq_nil]
        intro a ha
        simp only [decide_eq_true_eq]
        intro hai
        exact (hext a ha).1 (by rw [hai]; exact hip)
      have := hs.1 i
      omega
    · push_neg at hc
      have hz : countLog s i = 0 := by
        unfold countLog
        rw [List.length_eq_zero, List.filter_eq_nil]
        intro a ha
        simp only [decide_eq_true_eq]
        exact hc a ha
      have := pairwise_countLog_le_one hw i
      omega
  · intro e he
    rw [hlog] at he
    rcases List.mem_append.1 he with hm | hm
    · exact mono _ (hs.2 e hm)
    · exact (hext e hm).2

theorem inv_initState : Inv initState := by
  constructor
  · intro i; simp [countLog, initState]
  · intro e he; simp [initState] at he

theorem find?_eq_none_of_pending {s : EngineState} {idx : Nat}
    (h : statusOf s idx = .pending) :
    s.judgeLog.find? (fun e => decide (e.1 = idx)) = none := by
  unfold statusOf at h
  cases hf : s.judgeLog.find? (fun e => decide (e.1 = idx)) with
  | none => rfl
  | some e =>
      simp only [hf] at h
      split at h <;> simp at h

theorem statusOf_stable {s s₁ : EngineState} {idx : Nat}
    (h : JudgeExtend s s₁) (hne : statusOf s idx ≠ .pending) :
    statusOf s₁ idx = statusOf s idx := by
  obtain ⟨-, ext, hlog, -, -⟩ := h
  unfold statusOf
  cases hf : s.judgeLog.find? (fun e => decide (e.1 = idx)) with
  | none =>
      exfalso
      apply hne
      unfold statusOf
      rw [hf]
  | some e =>
      rw [hlog, List.find?_append, hf]
      rfl

theorem countLog_stable {s s₁ : EngineState} {idx : Nat}
    (h : JudgeExtend s s₁) (hidx : idx ∈ s.processedIndices) :
    countLog s₁ idx = countLog s idx := by
  obtain ⟨-, ext, hlog, hext, -⟩ := h
  unfold countLog
  rw [hlog, List.filter_append, List.length_append]
  have hz : (ext.filter fun e => decide (e.1 = idx)).length = 0 := by
    rw [List.length_eq_zero, List.filter_eq_nil]
    intro a ha
    simp only [decide_eq_true_eq]
    intro hai
    exact (hext a ha).1 (by rw [hai]; exact hidx)
  omega

/-! ## C4 — each note is judged at most once, terminally -/

/-- C4: over any sequence of inputs and ticks from the initial state, each
note receives at most one judgement event (so it never becomes both
Resolved and Missed and contributes at most one grade-counter increment),
and a note that has left Pending keeps its status through any further
events. -/
theorem claim_C4 (tl : List HitObject) (ns : ℚ) (evs evs₂ : List GEvent)
    (idx : Nat) :
    countLog (run tl ns initState evs) idx ≤ 1 ∧
    (statusOf (run tl ns initState evs) idx ≠ .pending →
      statusOf (run tl ns (run tl ns initState evs) evs₂) idx
        = statusOf (run tl ns initState evs) idx) := by
  constructor
  · exact (inv_of_judgeExtend inv_initState (run_judgeExtend tl ns evs initState)).1 idx
  · intro h
    exact statusOf_stable (run_judgeExtend tl ns evs₂ _) h

/-- Witness for C4: a note resolved by a key-down keeps its status through a
later key-down and key-up. -/
theorem claim_C4_witness :
    statusOf (run [⟨1000, none, 0⟩] 1
        (run [⟨1000, none, 0⟩] 1 initState [.keydown [0, 1] 1000])
        [.keydown [0, 1] 1400, .keyup [0, 1] 1500]) 0
      = statusOf (run [⟨1000, none, 0⟩] 1 initState [.keydown [0, 1] 1000]) 0 :=
  (claim_C4 [⟨1000, none, 0⟩] 1 [.keydown [0, 1] 1000]
    [.keydown [0, 1] 1400, .keyup [0, 1] 1500] 0).2 (by decide)

/-! ## Monotonicity machinery (C10) -/

theorem scoreMono_refl (s : EngineState) : ScoreMono s s :=
  ⟨le_refl _, le_refl _, le_refl _, le_refl _, le_refl _, le_refl _⟩

theorem scoreMono_trans {s₁ s₂ s₃ : EngineState} (h₁ : ScoreMono s₁ s₂)
    (h₂ : ScoreMono s₂ s₃) : ScoreMono s₁ s₃ := by
  obtain ⟨a₁, b₁, c₁, d₁, e₁, f₁⟩ := h₁
  obtain ⟨a₂, b₂, c₂, d₂, e₂, f₂⟩ := h₂
  exact ⟨le_trans a₁ a₂, le_trans b₁ b₂, le_trans c₁ c₂, le_trans d₁ d₂,
    le_trans e₁ e₂, le_trans f₁ f₂⟩

theorem scoreMono_of_eqFields {s s₁ : EngineState} (h₁ : s₁.score = s.score)
    (h₂ : s₁.maxCombo = s.maxCombo) (h₃ : s₁.perfect = s.perfect)
    (h₄ : s₁.good = s.good) (h₅ : s₁.bad = s.bad) (h₆ : s₁.miss = s.miss) :
    ScoreMono s s₁ :=
  ⟨h₁.ge, h₂.ge, h₃.ge, h₄.ge, h₅.ge, h₆.ge⟩

theorem registerHit_scoreMono (g : Grade) (s : EngineState) :
    ScoreMono s (registerHit g s) := by
  cases g <;>
    · simp only [ScoreMono, registerHit]
      refine ⟨?_, ?_, ?_, ?_, ?_, ?_⟩ <;> first | (split <;> omega) | omega

theorem registerHit_comboLe (g : Grade) (s : EngineState) :
    (registerHit g s).combo ≤ (registerHit g s).maxCombo := by
  cases g <;>
    · simp only [registerHit]
      first | (split <;> omega) | omega

theorem judgePhase_scoreMono (tl : List HitObject) (lanes : List Nat) (t : Int)
    (s : EngineState) : ScoreMono s (judgePhase tl lanes t s) := by
  rcases judgePhase_cases tl lanes t s with h | ⟨idx, note, g, _, _, _, h⟩
  · rw [h]; exact scoreMono_refl s
  · rw [h]
    refine scoreMono_trans ?_ (registerHit_scoreMono g _)
    exact scoreMono_of_eqFields rfl rfl rfl rfl rfl rfl

theorem handleKeyDown_scoreMono (tl : List HitObject) (lanes : List Nat)
    (t : Int) (s : EngineState) : ScoreMono s (handleKeyDown tl lanes t s) := by
  unfold handleKeyDown
  exact scoreMono_trans (judgePhase_scoreMono tl lanes t s)
    (scoreMono_of_eqFields (by simp) (by simp) (by simp) (by simp) (by simp)
      (by simp))

theorem handleKeyUp_scoreMono (tl : List HitObject) (lanes : List Nat)
    (s : EngineState) : ScoreMono s (handleKeyUp tl lanes s) := by
  obtain ⟨h, hu⟩ := handleKeyUp_eq tl lanes s
  rw [hu]
  exact scoreMono_refl _

theorem tickVisit_scoreMono (ns : ℚ) (t : Int) (st : EngineState)
    (p : Nat × HitObject) : ScoreMono st (tickVisit ns t st p) := by
  rcases tickVisit_cases ns t st p with h | ⟨_, _, h⟩
  · rw [h]; exact scoreMono_refl st
  · rw [h]
    refine scoreMono_trans ?_ (registerHit_scoreMono .miss _)
    exact scoreMono_of_eqFields rfl rfl rfl rfl rfl rfl

theorem foldTickVisit_scoreMono (ns : ℚ) (t : Int) :
    ∀ (l : List (Nat × HitObject)) (s : EngineState),
      ScoreMono s (l.foldl (tickVisit ns t) s) := by
  intro l
  induction l with
  | nil => intro s; exact scoreMono_refl s
  | cons p l ih =>
      intro s
      rw [List.foldl_cons]
      exact scoreMono_trans (tickVisit_scoreMono ns t s p) (ih _)

theorem step_scoreMono (tl : List HitObject) (ns : ℚ) (s : EngineState)
    (e : GEvent) : ScoreMono s (step tl ns s e) := by
  cases e with
  | keydown lanes t => exact handleKeyDown_scoreMono tl lanes t s
  | keyup lanes t => exact handleKeyUp_scoreMono tl lanes s
  | tick t => exact foldTickVisit_scoreMono ns t _ s

theorem run_scoreMono (tl : List HitObject) (ns : ℚ) :
    ∀ (evs : List GEvent) (s : EngineState), ScoreMono s (run tl ns s evs) := by
  intro evs
  induction evs with
  | nil => intro s; exact scoreMono_refl s
  | cons e evs ih =>
      intro s
      unfold run at ih ⊢
      rw [List.foldl_cons]
      exact scoreMono_trans (step_scoreMono tl ns s e) (ih (step tl ns s e))

theorem judgePhase_comboLe (tl : List HitObject) (lanes : List Nat) (t : Int)
    (s : EngineState) (h : s.combo ≤ s.maxCombo) :
    (judgePhase tl lanes t s).combo ≤ (judgePhase tl lanes t s).maxCombo := by
  rcases judgePhase_cases tl lanes t s with heq | ⟨idx, note, g, _, _, _, heq⟩
  · rw [heq]; exact h
  · rw [heq]; exact registerHit_comboLe g _

theorem tickVisit_comboLe (ns : ℚ) (t : Int) (st : EngineState)
    (p : Nat × HitObject) (h : st.combo ≤ st.maxCombo) :
    (tickVisit ns t st p).combo ≤ (tickVisit ns t st p).maxCombo := by
  rcases tickVisit_cases ns t st p with heq | ⟨_, _, heq⟩
  · rw [heq]; exact h
  · rw [heq]; exact registerHit_comboLe .miss _

theorem foldTickVisit_comboLe (ns : ℚ) (t : Int) :
    ∀ (l : List (Nat × HitObject)) (s : EngineState), s.combo ≤ s.maxCombo →
      (l.foldl (tickVisit ns t) s).combo ≤ (l.foldl (tickVisit ns t) s).maxCombo := by
  intro l
  induction l with
  | nil => intro s h; exact h
  | cons p l ih =>
      intro s h
      rw [List.foldl_cons]
      exact ih _ (tickVisit_comboLe ns t s p h)

theorem step_comboLe (tl : List HitObject) (ns : ℚ) (s : EngineState)
    (e : GEvent) (h : s.combo ≤ s.maxCombo) :
    (step tl ns s e).combo ≤ (step tl ns s e).maxCombo := by
  cases e with
  | keydown lanes t =>
      show (handleKeyDown tl lanes t s).combo ≤ (handleKeyDown tl lanes t s).maxCombo
      unfold handleKeyDown
      rw [detectPatterns_combo, detectPatterns_maxCombo]
      exact judgePhase_comboLe tl lanes t s h
  | keyup lanes t =>
      obtain ⟨hh, hu⟩ := handleKeyUp_eq tl lanes s
      show (handleKeyUp tl lanes s).combo ≤ (handleKeyUp tl lanes s).maxCombo
      rw [hu]
      exact h
  | tick t => exact foldTickVisit_comboLe ns t _ s h

theorem run_comboLe (tl : List HitObject) (ns : ℚ) :
    ∀ (evs : List GEvent) (s : EngineState), s.combo ≤ s.maxCombo →
      (run tl ns s evs).combo ≤ (run tl ns s evs).maxCombo := by
  intro evs
  induction evs with
  | nil => intro s h; exact h
  | cons e evs ih =>
      intro s h
      unfold run at ih ⊢
      rw [List.foldl_cons]
      exact ih _ (step_comboLe tl ns s e h)

/-! ## C10 — bounds and monotonicity of the score state -/

/-- C10: from any state satisfying `combo ≤ maxCombo` (as the initial state
does), after any sequence of input events and ticks `0 ≤ combo ≤ maxCombo`
still holds, and score, maxCombo and the perfect/good/bad/miss counters
never decrease. -/
theorem claim_C10 (tl : List HitObject) (ns : ℚ) (s : EngineState)
    (evs : List GEvent) (h : s.combo ≤ s.maxCombo) :
    0 ≤ (run tl ns s evs).combo ∧
    (run tl ns s evs).combo ≤ (run tl ns s evs).maxCombo ∧
    ScoreMono s (run tl ns s evs) :=
  ⟨Nat.zero_le _, run_comboLe tl ns evs s h, run_scoreMono tl ns evs s⟩

/-- Witness for C10 on a concrete run from the initial state. -/
theorem claim_C10_witness :
    0 ≤ (run [⟨1000, none, 0⟩] 1 initState [.keydown [0, 1] 1000]).combo ∧
    (run [⟨1000, none, 0⟩] 1 initState [.keydown [0, 1] 1000]).combo ≤
      (run [⟨1000, none, 0⟩] 1 initState [.keydown [0, 1] 1000]).maxCombo ∧
    ScoreMono initState (run [⟨1000, none, 0⟩] 1 initState [.keydown [0, 1] 1000]) :=
  claim_C10 [⟨1000, none, 0⟩] 1 initState [.keydown [0, 1] 1000] (by decide)

/-! ## C3 — the auto-miss scan -/

theorem find?_idx_eq_none_of_no_fst {l : List (Nat × Grade)} {idx : Nat}
    (h : ∀ e ∈ l, e.1 ≠ idx) :
    l.find? (fun e => decide (e.1 = idx)) = none := by
  rw [List.find?_eq_none]
  intro x hx
  simp only [decide_eq_true_eq]
  exact h x hx

theorem filter_idx_len_zero {l : List (Nat × Grade)} {idx : Nat}
    (h : ∀ e ∈ l, e.1 ≠ idx) :
    (l.filter fun e => decide (e.1 = idx)).length = 0 := by
  rw [List.length_eq_zero, List.filter_eq_nil]
  intro x hx
  simp only [decide_eq_true_eq]
  exact h x hx

theorem tickVisible_nodup_fst (tl : List HitObject) (ns : ℚ) (t : Int)
    (s : EngineState) : ((tickVisible tl ns t s).map Prod.fst).Nodup := by
  have hsub : List.Sublist ((tickVisible tl ns t s).map Prod.fst)
      (tl.enum.map Prod.fst) :=
    List.Sublist.map Prod.fst (List.filter_sublist _)
  rw [List.enum_map_fst] at hsub
  exact List.Nodup.sublist hsub (List.nodup_range _)

theorem mem_tickVisible {tl : List HitObject} {ns : ℚ} {t : Int}
    {s : EngineState} {idx : Nat} {note : HitObject}
    (hget : tl.get? idx = some note) (hpend : idx ∉ s.processedIndices)
    (hvis : note.time ≥ t - 200) (hlate : 160 < t - note.time) (hns : 0 < ns) :
    (idx, note) ∈ tickVisible tl ns t s := by
  unfold tickVisible
  rw [List.mem_filter]
  refine ⟨List.mk_mem_enum_iff_get?.2 hget, ?_⟩
  rw [decide_eq_true_eq]
  refine ⟨fun hc => hpend hc.1, hvis, ?_⟩
  have h1 : (note.time : ℚ) ≤ (t : ℚ) := by
    exact_mod_cast le_of_lt (by omega : note.time < t)
  have h2 : (0 : ℚ) ≤ ns * 1000 := by positivity
  linarith

theorem foldTickVisit_processed_subset (ns : ℚ) (t : Int) :
    ∀ (l : List (Nat × HitObject)) (s : EngineState) (i : Nat),
      i ∈ (l.foldl (tickVisit ns t) s).processedIndices →
      i ∈ s.processedIndices ∨ i ∈ l.map Prod.fst := by
  intro l
  induction l with
  | nil => intro s i h; exact Or.inl h
  | cons p l ih =>
      intro s i h
      rw [List.foldl_cons] at h
      rcases ih _ i h with hi | hi
      · rcases tickVisit_cases ns t s p with heq | ⟨_, _, heq⟩
        · rw [heq] at hi; exact Or.inl hi
        · rw [heq, registerHit_processedIndices] at hi
          rcases List.mem_cons.1 hi with h1 | h1
          · right
            rw [List.map_cons, h1]
            exact List.mem_cons_self _ _
          · exact Or.inl h1
      · right
        rw [List.map_cons]
        exact List.mem_cons_of_mem _ hi

theorem foldTickVisit_combo_zero (ns : ℚ) (t : Int) :
    ∀ (l : List (Nat × HitObject)) (s : EngineState), s.combo = 0 →
      (l.foldl (tickVisit ns t) s).combo = 0 := by
  intro l
  induction l with
  | nil => intro s h; exact h
  | cons p l ih =>
      intro s h
      rw [List.foldl_cons]
      apply ih
      rcases tickVisit_cases ns t s p with heq | ⟨_, _, heq⟩
      · rw [heq]; exact h
      · rw [heq]; rfl

theorem handleTick_misses (tl : List HitObject) (ns : ℚ) (t : Int)
    (s : EngineState) (idx : Nat) (note : HitObject)
    (hget : tl.get? idx = some note) (hpend : idx ∉ s.processedIndices)
    (hnolog : statusOf s idx = .pending)
    (hlate : 160 < t - note.time) (hvis : note.time ≥ t - 200) (hns : 0 < ns) :
    statusOf (handleTick tl ns t s) idx = .missed ∧
    (handleTick tl ns t s).combo = 0 ∧
    countLog (handleTick tl ns t s) idx = 1 ∧
    idx ∈ (handleTick tl ns t s).processedIndices := by
  have hmem := mem_tickVisible hget hpend hvis hlate hns
  obtain ⟨l₁, l₂, hsplit⟩ := List.append_of_mem hmem
  have hnd := tickVisible_nodup_fst tl ns t s
  rw [hsplit, List.map_append, List.map_cons, List.nodup_middle,
    List.nodup_cons] at hnd
  have hidx₁ : idx ∉ l₁.map Prod.fst := fun hc =>
    hnd.1 (List.mem_append.2 (Or.inl hc))
  have hidx₂ : idx ∉ l₂.map Prod.fst := fun hc =>
    hnd.1 (List.mem_append.2 (Or.inr hc))
  unfold handleTick
  rw [hsplit, List.foldl_append, List.foldl_cons]
  -- state after the prefix of the scan
  obtain ⟨mono₁, ext₁, hlog₁, hext₁, hw₁⟩ :=
    foldTickVisit_judgeExtend ns t l₁ s
  have hpend₁ : idx ∉ (l₁.foldl (tickVisit ns t) s).processedIndices := by
    intro hc
    rcases foldTickVisit_processed_subset ns t l₁ s idx hc with h | h
    · exact hpend h
    · exact hidx₁ h
  have hd : note.time - t < -HIT_WINDOW_BAD := by
    unfold HIT_WINDOW_BAD
    omega
  have hprog : ¬((1 : ℚ) - ((note.time - t : Int) : ℚ) / (ns * 1000) < 0) := by
    have hdQ : ((note.time - t : Int) : ℚ) < 0 := by
      exact_mod_cast (by omega : note.time - t < (0 : Int))
    have hnsQ : (0 : ℚ) < ns * 1000 := by positivity
    have hneg := div_neg_of_neg_of_pos hdQ hnsQ
    linarith
  have hpivot : tickVisit ns t (l₁.foldl (tickVisit ns t) s) (idx, note) =
      registerHit .miss
        { l₁.foldl (tickVisit ns t) s with
            processedIndices := idx :: (l₁.foldl (tickVisit ns t) s).processedIndices,
            judgeLog := (l₁.foldl (tickVisit ns t) s).judgeLog ++ [(idx, Grade.miss)] } := by
    simp only [tickVisit]
    rw [if_neg hprog, if_pos ⟨hpend₁, hd⟩]
  rw [hpivot]
  -- state after the pivot miss
  obtain ⟨mono₂, ext₂, hlog₂, hext₂, hw₂⟩ :=
    foldTickVisit_judgeExtend ns t l₂
      (registerHit .miss
        { l₁.foldl (tickVisit ns t) s with
            processedIndices := idx :: (l₁.foldl (tickVisit ns t) s).processedIndices,
            judgeLog := (l₁.foldl (tickVisit ns t) s).judgeLog ++ [(idx, Grade.miss)] })
  have hidxmem : idx ∈ (registerHit .miss
      { l₁.foldl (tickVisit ns t) s with
          processedIndices := idx :: (l₁.foldl (tickVisit ns t) s).processedIndices,
          judgeLog := (l₁.foldl (tickVisit ns t) s).judgeLog ++ [(idx, Grade.miss)] }).processedIndices := by
    rw [registerHit_processedIndices]
    exact List.mem_cons_self _ _
  have hext₁idx : ∀ e ∈ ext₁, e.1 ≠ idx := by
    intro e he hc
    have h1 := (hext₁ e he).1
    have h2 := (hext₁ e he).2
    rcases foldTickVisit_processed_subset ns t l₁ s e.1 h2 with h3 | h3
    · exact h1 h3
    · rw [hc] at h3
      exact hidx₁ h3
  have hext₂idx : ∀ e ∈ ext₂, e.1 ≠ idx := by
    intro e he hc
    apply (hext₂ e he).1
    rw [hc]
    exact hidxmem
  have hlogfin : (l₂.foldl (tickVisit ns t)
      (registerHit .miss
        { l₁.foldl (tickVisit ns t) s with
            processedIndices := idx :: (l₁.foldl (tickVisit ns t) s).processedIndices,
            judgeLog := (l₁.foldl (tickVisit ns t) s).judgeLog ++ [(idx, Grade.miss)] })).judgeLog
      = ((s.judgeLog ++ ext₁) ++ [(idx, Grade.miss)]) ++ ext₂ := by
    rw [hlog₂, registerHit_judgeLog]
    show ((l₁.foldl (tickVisit ns t) s).judgeLog ++ [(idx, Grade.miss)]) ++ ext₂
      = ((s.judgeLog ++ ext₁) ++ [(idx, Grade.miss)]) ++ ext₂
    rw [hlog₁]
  refine ⟨?_, ?_, ?_, ?_⟩
  · -- status is missed
    unfold statusOf
    rw [hlogfin, List.find?_append, List.find?_append, List.find?_append,
      find?_eq_none_of_pending hnolog, find?_idx_eq_none_of_no_fst hext₁idx]
    simp
  · -- combo is zero
    apply foldTickVisit_combo_zero
    rfl
  · -- exactly one judgement event for the note
    unfold countLog
    rw [hlogfin, List.filter_append, List.filter_append, List.filter_append,
      List.length_append, List.length_append, List.length_append,
      filter_idx_len_zero hext₁idx, filter_idx_len_zero hext₂idx]
    have hz : (s.judgeLog.filter fun e => decide (e.1 = idx)).length = 0 := by
      apply filter_idx_len_zero
      intro e he hc
      have := List.find?_eq_none.1 (find?_eq_none_of_pending hnolog) e he
      simp only [decide_eq_true_eq] at this
      exact this hc
    rw [hz]
    simp
  · -- processed
    exact mono₂ idx hidxmem

/-- C3 counterexample: at a tick at engine clock 400, a Pending note at time
0 satisfies `engineClock - note.time = 400 > 160`, yet the scan leaves it
Pending — the per-tick scan only reaches notes whose time is within the
visibility window `time ≥ engineClock - 200`. -/
theorem claim_C3_cex :
    (400 : Int) - (0 : Int) > 160 ∧
    statusOf (handleTick [⟨0, none, 0⟩] 1 400 initState) 0
      = NoteStatus.pending ∧
    (handleTick [⟨0, none, 0⟩] 1 400 initState).miss = 0 := by
  refine ⟨by decide, by decide, by decide⟩

/-- C3 (amended): on a tick at engine clock `t` with positive note speed, a
still-Pending note with `t - note.time > 160` **and within the visibility
window** (`note.time ≥ t - 200`) is auto-missed by the scan: it becomes
Missed, the combo is reset to 0, and the note carries exactly one judgement
event — also after any further events. -/
theorem claim_C3_amended (tl : List HitObject) (ns : ℚ) (t : Int)
    (s : EngineState) (idx : Nat) (note : HitObject)
    (hget : tl.get? idx = some note) (hpend : idx ∉ s.processedIndices)
    (hnolog : statusOf s idx = .pending)
    (hlate : 160 < t - note.time) (hvis : note.time ≥ t - 200) (hns : 0 < ns) :
    statusOf (handleTick tl ns t s) idx = .missed ∧
    (handleTick tl ns t s).combo = 0 ∧
    countLog (handleTick tl ns t s) idx = 1 ∧
    ∀ evs : List GEvent,
      countLog (run tl ns (handleTick tl ns t s) evs) idx = 1 := by
  obtain ⟨h1, h2, h3, h4⟩ :=
    handleTick_misses tl ns t s idx note hget hpend hnolog hlate hvis hns
  refine ⟨h1, h2, h3, fun evs => ?_⟩
  rw [countLog_stable (run_judgeExtend tl ns evs _) h4, h3]

/-- Witness for C3 (amended): a note at time 0 still Pending at a tick at
engine clock 180. -/
theorem claim_C3_witness :
    statusOf (handleTick [⟨0, none, 0⟩] 1 180 initState) 0 = .missed ∧
    (handleTick [⟨0, none, 0⟩] 1 180 initState).combo = 0 ∧
    countLog (handleTick [⟨0, none, 0⟩] 1 180 initState) 0 = 1 ∧
    ∀ evs : List GEvent,
      countLog (run [⟨0, none, 0⟩] 1 (handleTick [⟨0, none, 0⟩] 1 180 initState) evs) 0 = 1 :=
  claim_C3_amended [⟨0, none, 0⟩] 1 180 initState 0 ⟨0, none, 0⟩ (by decide)
    (by decide) (by decide) (by decide) (by decide) (by decide)

/-! ## C9 — the pattern classifier -/

/-- C9 counterexample: (a) a key-down press that judges no note (a whiff on
lanes 4/5) still emits a simultaneous-hit event — the classifier runs on
every key-down, not only on successful judgements; (b) two notes on
distinct lanes judged 5ms apart (within any 40ms judgement window) emit no
event, because the classifier windows on note times, not judgement times. -/
theorem claim_C9_cex :
    ((run [⟨1000, none, 0⟩, ⟨1000, none, 2⟩] 1 initState
        [.keydown [0, 1] 1000, .keydown [2, 3] 1001, .keydown [4, 5] 1002]).judgeLog
      = (run [⟨1000, none, 0⟩, ⟨1000, none, 2⟩] 1 initState
          [.keydown [0, 1] 1000, .keydown [2, 3] 1001]).judgeLog ∧
      (run [⟨1000, none, 0⟩, ⟨1000, none, 2⟩] 1 initState
        [.keydown [0, 1] 1000, .keydown [2, 3] 1001, .keydown [4, 5] 1002]).flashEvents.length
      = (run [⟨1000, none, 0⟩, ⟨1000, none, 2⟩] 1 initState
          [.keydown [0, 1] 1000, .keydown [2, 3] 1001]).flashEvents.length + 1) ∧
    ((run [⟨1000, none, 0⟩, ⟨1105, none, 2⟩] 1 initState
        [.keydown [0, 1] 1000, .keydown [2, 3] 1005]).judgeLog
      = [(0, .perfect), (1, .good)] ∧
      (run [⟨1000, none, 0⟩, ⟨1105, none, 2⟩] 1 initState
        [.keydown [0, 1] 1000, .keydown [2, 3] 1005]).flashEvents = []) := by
  exact ⟨⟨by decide, by decide⟩, ⟨by decide, by decide⟩⟩

/-- C9 (amended): the pattern classifier runs on every key-down press
(matched or not); it collects the already-judged notes whose note time lies
within 40ms of the engine clock and emits one event carrying the distinct
lane set iff that set has at least 2 lanes.  Three notes on distinct lanes
at times 30ms apart, each pressed at its time, yield exactly one 3-lane
event; the same notes 50ms apart yield none; and the classifier never
touches grading or scoring state. -/
theorem claim_C9_amended :
    (∀ (tl : List HitObject) (t : Int) (s : EngineState),
      (detectPatterns tl t s).judgeLog = s.judgeLog ∧
      (detectPatterns tl t s).processedIndices = s.processedIndices ∧
      (detectPatterns tl t s).score = s.score ∧
      (detectPatterns tl t s).combo = s.combo ∧
      (detectPatterns tl t s).maxCombo = s.maxCombo ∧
      (detectPatterns tl t s).perfect = s.perfect ∧
      (detectPatterns tl t s).good = s.good ∧
      (detectPatterns tl t s).bad = s.bad ∧
      (detectPatterns tl t s).miss = s.miss) ∧
    (run [⟨1000, none, 0⟩, ⟨1010, none, 2⟩, ⟨1020, none, 4⟩] 1 initState
      [.keydown [0, 1] 1000, .keydown [2, 3] 1010, .keydown [4, 5] 1020]).flashEvents
      = [[0, 2], [0, 2, 4]] ∧
    ((run [⟨1000, none, 0⟩, ⟨1010, none, 2⟩, ⟨1020, none, 4⟩] 1 initState
      [.keydown [0, 1] 1000, .keydown [2, 3] 1010, .keydown [4, 5] 1020]).flashEvents.filter
        (fun e => decide (e.length = 3))).length = 1 ∧
    (run [⟨1000, none, 0⟩, ⟨1050, none, 2⟩, ⟨1100, none, 4⟩] 1 initState
      [.keydown [0, 1] 1000, .keydown [2, 3] 1050, .keydown [4, 5] 1100]).flashEvents
      = [] := by
  refine ⟨fun tl t s => ⟨by simp, by simp, by simp, by simp, by simp, by simp,
    by simp, by simp, by simp⟩, by decide, by decide, by decide⟩

/-! ## C7 — decoded-timeline invariants -/

theorem parseHitObjectLine_column {cs : Option Int} {line : List Char}
    {o : OsuHitObject} (h : parseHitObjectLine cs line = .ok o) :
    ∀ v, o.column = some v → 0 ≤ v ∧ v ≤ 7 := by
  intro v hv
  simp only [parseHitObjectLine] at h
  split at h
  · split at h
    · exact absurd h (by simp)
    · injection h with h
      subst h
      simp only [] at hv
      split at hv
      · injection hv with hv
        subst hv
        exact ⟨le_max_left _ _, max_le (by norm_num) (min_le_right _ _)⟩
      · exact absurd hv (by simp)
  · injection h with h
    subst h
    simp only [] at hv
    split at hv
    · injection hv with hv
      subst hv
      exact ⟨le_max_left _ _, max_le (by norm_num) (min_le_right _ _)⟩
    · exact absurd hv (by simp)

theorem parseGeneralLine_hitObjects (st : PState) (line : List Char) :
    (parseGeneralLine st line).data.hitObjects = st.data.hitObjects := by
  simp only [parseGeneralLine]
  split <;> rfl

theorem parseMetadataLine_hitObjects (st : PState) (line : List Char) :
    (parseMetadataLine st line).data.hitObjects = st.data.hitObjects := by
  simp only [parseMetadataLine]
  split_ifs <;> rfl

theorem parseDifficultyLine_hitObjects (st : PState) (line : List Char) :
    (parseDifficultyLine st line).data.hitObjects = st.data.hitObjects := by
  simp only [parseDifficultyLine]
  split <;> rfl

theorem parseEventsLine_hitObjects (st : PState) (line : List Char) :
    (parseEventsLine st line).data.hitObjects = st.data.hitObjects := by
  simp only [parseEventsLine]
  split_ifs <;> rfl

theorem parseTimingPointsLine_hitObjects (st : PState) (line : List Char) :
    (parseTimingPointsLine st line).data.hitObjects = st.data.hitObjects := by
  simp only [parseTimingPointsLine]
  split <;> rfl

set_option maxHeartbeats 1600000 in
theorem parseLine_hitObjects {st st₁ : PState} {raw : List Char}
    (h : parseLine st raw = .ok st₁) :
    st₁.data.hitObjects = st.data.hitObjects ∨
    ∃ obj, parseHitObjectLine st.circleSize (trimChars raw) = .ok obj ∧
      st₁.data.hitObjects = st.data.hitObjects ++ [obj] := by
  simp only [parseLine] at h
  repeat' split at h
  all_goals try
    (injection h with h; subst h;
     first
       | exact Or.inl rfl
       | exact Or.inl (parseGeneralLine_hitObjects _ _)
       | exact Or.inl (parseMetadataLine_hitObjects _ _)
       | exact Or.inl (parseDifficultyLine_hitObjects _ _)
       | exact Or.inl (parseEventsLine_hitObjects _ _)
       | exact Or.inl (parseTimingPointsLine_hitObjects _ _))
  all_goals try (exact Except.noConfusion h)
  all_goals
    rename_i obj heq
    injection h with h
    subst h
    exact Or.inr ⟨obj, heq, rfl⟩

theorem foldlM_parseLine_inv {P : PState → Prop}
    (hstep : ∀ st raw st₁, parseLine st raw = .ok st₁ → P st → P st₁) :
    ∀ (lines : List (List Char)) (st st₁ : PState),
      lines.foldlM parseLine st = .ok st₁ → P st → P st₁ := by
  intro lines
  induction lines with
  | nil =>
      intro st st₁ h hp
      simp only [List.foldlM_nil] at h
      injection h with h
      subst h
      exact hp
  | cons l lines ih =>
      intro st st₁ h hp
      rw [List.foldlM_cons] at h
      cases hpl : parseLine st l with
      | error e =>
          rw [hpl] at h
          exact Except.noConfusion h
      | ok st₂ =>
          rw [hpl] at h
          exact ih st₂ st₁ h (hstep st l st₂ hpl hp)

theorem parseOsuText_ok {text : String} {d : OsuData}
    (h : parseOsuText text = .ok d) :
    ∃ st, (splitOnChar '\n' text.data).foldlM parseLine initPState = .ok st ∧
      d = finalizeData st := by
  unfold parseOsuText at h
  cases hf : (splitOnChar '\n' text.data).foldlM parseLine initPState with
  | ok st =>
      simp only [hf] at h
      injection h with h
      exact ⟨st, rfl, h.symm⟩
  | error e =>
      simp only [hf] at h
      exact Except.noConfusion h

theorem mem_jsStableInsert {α : Type} (le : α → α → Bool) (a x : α) :
    ∀ l : List α, x ∈ jsStableInsert le a l ↔ x = a ∨ x ∈ l := by
  intro l
  induction l with
  | nil => simp [jsStableInsert]
  | cons b l ih =>
      simp only [jsStableInsert]
      split
      · simp [List.mem_cons]
      · rw [List.mem_cons, ih, List.mem_cons]
        tauto

theorem mem_jsStableSort {α : Type} (le : α → α → Bool) (x : α) :
    ∀ l : List α, x ∈ jsStableSort le l ↔ x ∈ l := by
  intro l
  induction l with
  | nil => simp [jsStableSort]
  | cons a l ih =>
      simp only [jsStableSort]
      rw [mem_jsStableInsert, ih, List.mem_cons]

theorem jsStableInsert_sorted_by_time {a : OsuHitObject} :
    ∀ {l : List OsuHitObject}, a.time.isSome = true →
    (∀ o ∈ l, o.time.isSome = true) →
    l.Pairwise (fun a b => ∀ x y, a.time = some x → b.time = some y → x ≤ y) →
    (jsStableInsert jsSortLe a l).Pairwise
      (fun a b => ∀ x y, a.time = some x → b.time = some y → x ≤ y) := by
  intro l
  induction l with
  | nil =>
      intro _ _ _
      simp [jsStableInsert]
  | cons b l ih =>
      intro ha hl hs
      rw [List.pairwise_cons] at hs
      simp only [jsStableInsert]
      split
      · next hle =>
          rw [List.pairwise_cons]
          refine ⟨?_, List.pairwise_cons.2 ⟨hs.1, hs.2⟩⟩
          intro c hc x z hx hz
          rcases List.mem_cons.1 hc with hcb | hcl
          · subst hcb
            unfold jsSortLe at hle
            simp only [hx, hz, decide_eq_true_eq] at hle
            exact hle
          · obtain ⟨y, hy⟩ := Option.isSome_iff_exists.1
              (hl b (List.mem_cons_self _ _))
            have hab : x ≤ y := by
              unfold jsSortLe at hle
              simp only [hx, hy, decide_eq_true_eq] at hle
              exact hle
            exact le_trans hab (hs.1 c hcl y z hy hz)
      · next hle =>
          rw [List.pairwise_cons]
          constructor
          · intro c hc x z hx hz
            rcases (mem_jsStableInsert jsSortLe a c l).1 hc with hca | hcl
            · subst hca
              unfold jsSortLe at hle
              simp only [hz, hx, decide_eq_true_eq] at hle
              exact le_of_not_le hle
            · exact hs.1 c hcl x z hx hz
          · exact ih ha (fun o ho => hl o (List.mem_cons_of_mem _ ho)) hs.2

theorem jsStableSort_sorted_by_time :
    ∀ l : List OsuHitObject, (∀ o ∈ l, o.time.isSome = true) →
    (jsStableSort jsSortLe l).Pairwise
      (fun a b => ∀ x y, a.time = some x → b.time = some y → x ≤ y) := by
  intro l
  induction l with
  | nil =>
      intro _
      simp [jsStableSort]
  | cons a l ih =>
      intro hl
      simp only [jsStableSort]
      refine jsStableInsert_sorted_by_time (hl a (List.mem_cons_self _ _)) ?_ ?_
      · intro o ho
        exact hl o
          (List.mem_cons_of_mem _ ((mem_jsStableSort jsSortLe o l).1 ho))
      · exact ih fun o ho => hl o (List.mem_cons_of_mem _ ho)

theorem parseOsuText_columns {text : String} {d : OsuData}
    (h : parseOsuText text = .ok d) :
    ∀ o ∈ d.hitObjects, ∀ v, o.column = some v → 0 ≤ v ∧ v ≤ 7 := by
  obtain ⟨st, hfold, hd⟩ := parseOsuText_ok h
  have hP : ∀ o ∈ st.data.hitObjects, ∀ v, o.column = some v → 0 ≤ v ∧ v ≤ 7 := by
    refine @foldlM_parseLine_inv
      (fun st => ∀ o ∈ st.data.hitObjects, ∀ v, o.column = some v → 0 ≤ v ∧ v ≤ 7)
      ?_ _ initPState st hfold ?_
    · intro st₀ raw st₁ hline hp o ho v hv
      rcases parseLine_hitObjects hline with heq | ⟨obj, hobj, heq⟩
      · rw [heq] at ho
        exact hp o ho v hv
      · rw [heq] at ho
        rcases List.mem_append.1 ho with hm | hm
        · exact hp o hm v hv
        · rw [List.mem_singleton] at hm
          subst hm
          exact parseHitObjectLine_column hobj v hv
    · intro o ho
      simp [initPState] at ho
  intro o ho v hv
  rw [hd] at ho
  have ho₂ : o ∈ jsStableSort jsSortLe st.data.hitObjects := ho
  have hmem : o ∈ st.data.hitObjects :=
    (mem_jsStableSort jsSortLe o st.data.hitObjects).1 ho₂
  exact hP o hmem v hv

theorem parseOsuText_sorted {text : String} {d : OsuData}
    (h : parseOsuText text = .ok d)
    (hall : ∀ o ∈ d.hitObjects, o.time.isSome = true) :
    d.hitObjects.Pairwise
      (fun a b => ∀ x y, a.time = some x → b.time = some y → x ≤ y) := by
  obtain ⟨st, hfold, hd⟩ := parseOsuText_ok h
  subst hd
  have hall₀ : ∀ o ∈ st.data.hitObjects, o.time.isSome = true := by
    intro o ho
    exact hall o ((mem_jsStableSort jsSortLe o st.data.hitObjects).2 ho)
  exact jsStableSort_sorted_by_time st.data.hitObjects hall₀

/-- C7 counterexample: two charts accepted by the decoder whose timelines
violate the claimed invariants.  The first contains a hold note with
`endTime = 500 < time = 1000` and a note (from the unparseable line
`foo,bar`) with a NaN lane, in no range; the NaN-time note is a tie against
its neighbour under SortCompare, so it stays after the hold.  The second
has source-order times `100, NaN, 50`: every adjacent comparison is a tie
or ordered, so the sort leaves the list in place and the parsed times 100
and 50 come out in decreasing order — the timeline is not sorted
non-decreasing by time. -/
theorem claim_C7_cex :
    ((parseOsuText "[HitObjects]\n0,0,1000,128,0,500:0:0:0:\nfoo,bar").toOption.map
        (fun d => decide (TimelineClaimOK d.hitObjects))) = some false ∧
    ((parseOsuText "[HitObjects]\n0,0,1000,128,0,500:0:0:0:\nfoo,bar").toOption.map
        (fun d => d.hitObjects.map fun o => (o.time, o.endTime, o.column)))
      = some [(some 1000, some (some 500), some 5), (none, none, none)] ∧
    ((parseOsuText "[HitObjects]\n0,0,100,1,0\nfoo,bar\n0,0,50,1,0").toOption.map
        (fun d => d.hitObjects.map fun o => o.time))
      = some [some 100, none, some 50] ∧
    ((parseOsuText "[HitObjects]\n0,0,100,1,0\nfoo,bar\n0,0,50,1,0").toOption.map
        (fun d => decide (TimelineClaimOK d.hitObjects))) = some false := by
  exact ⟨by decide, by decide, by decide, by decide⟩

/-- C7 (amended): for every accepted chart whose hit-object times all
parsed (no NaN time), the decoded timeline is sorted non-decreasing by
time; and in every accepted chart each note whose lane computation produced
a number has it in `[0, 7]`.  The decoder does not enforce
`endTime > time` for hold notes, and a line with unparseable numeric
fields contributes a note with NaN fields: its NaN lane is in no range,
and, since the sort comparator treats every comparison with a NaN time as
a tie, parsed times on the two sides of such a note can stay out of
order. -/
theorem claim_C7_amended (text : String) (d : OsuData)
    (h : parseOsuText text = Except.ok d) :
    ((∀ o ∈ d.hitObjects, o.time.isSome = true) →
      d.hitObjects.Pairwise
        (fun a b => ∀ x y, a.time = some x → b.time = some y → x ≤ y)) ∧
    ∀ o ∈ d.hitObjects, ∀ v, o.column = some v → 0 ≤ v ∧ v ≤ 7 :=
  ⟨fun hall => parseOsuText_sorted h hall, parseOsuText_columns h⟩

/-- Witness for C7 (amended) on a concrete accepted chart whose times all
parsed. -/
theorem claim_C7_witness :
    sampleChartData.hitObjects.Pairwise
      (fun a b => ∀ x y, a.time = some x → b.time = some y → x ≤ y) ∧
    ∀ o ∈ sampleChartData.hitObjects,
      ∀ v, o.column = some v → 0 ≤ v ∧ v ≤ 7 :=
  ⟨(claim_C7_amended "[HitObjects]\n64,0,200,1,0" sampleChartData
      (by decide)).1 (by decide),
   (claim_C7_amended "[HitObjects]\n64,0,200,1,0" sampleChartData
      (by decide)).2⟩

/-! ## C8 — decoder error tolerance -/

/-- C8 counterexample: a hold-flagged hit-object line lacking its sixth
field makes the whole decode fail even though a chart entry exists (the
failure is not structural absence), and a hit-object line with unparseable
numeric fields is not skipped: it still contributes a note. -/
theorem claim_C8_cex :
    parseOSZ [("chart.osu", "[HitObjects]\n0,0,1000,128,0")]
      = Except.error "TypeError: cannot read split of undefined" ∧
    (parseOsuText "[HitObjects]\nfoo,bar").toOption.map
        (fun d => d.hitObjects.length) = some 1 := by
  exact ⟨by decide, by decide⟩

/-- C8 (amended): unknown sections and keys are ignored, and unresolved
audio/background references are tolerated; but decode is not best-effort
for HitObjects lines: a line with bad numeric fields is not skipped — it
contributes a NaN-field note — and a hold-flagged line without a sixth
field aborts the decode; absence of a chart entry in the container is
fatal. -/
theorem claim_C8_amended :
    (∀ (st : PState) (raw : List Char),
      (trimChars raw).isEmpty = false →
      List.isPrefixOf "//".data (trimChars raw) = false →
      List.isPrefixOf "[".data (trimChars raw) = false →
      st.sect ∉ ["General".data, "Metadata".data, "Difficulty".data,
        "Events".data, "TimingPoints".data, "HitObjects".data] →
      parseLine st raw = Except.ok st) ∧
    parseOSZ [("a.mp3", "sound")]
      = Except.error "No .osu file found in the archive." ∧
    (parseOSZ [("c.osu",
        "[General]\nAudioFilename: song.mp3\n[HitObjects]\n64,0,200,1,0")]).toOption.map
      (fun b => b.hasAudio) = some false ∧
    (parseOsuText "[HitObjects]\nfoo").toOption.map
      (fun d => d.hitObjects.map fun o => o.column) = some [none] := by
  refine ⟨?_, by decide, by decide, by decide⟩
  intro st raw h1 h2 h3 h4
  simp only [List.mem_cons, List.not_mem_nil, or_false, not_or] at h4
  obtain ⟨hg, hm, hdf, hev, htp, hho⟩ := h4
  simp [parseLine, h1, h2, h3, hg, hm, hdf, hev, htp, hho]

/-- Witness for C8 (amended): a key-value line under an unknown section is
ignored. -/
theorem claim_C8_witness :
    parseLine initPState "xyz: 1".data = Except.ok initPState :=
  claim_C8_amended.1 initPState "xyz: 1".data (by decide) (by decide) (by decide)
    (by decide)

end Cycles
